import Mathlib

/-!
Verification of the queue / stream-table engine of the ARM SMMUv3 driver
(`drivers/iommu/arm-smmu-v3.c`).  The C code is shallowly embedded: machine
integers become `Nat` with explicit masking / `% 2^w` where the C arithmetic
wraps, pointer-addressed arrays become functions `Nat → Nat`, and the
concurrent command-queue insertion protocol becomes a small-step transition
system.
-/

/-! ## Low-level queue index arithmetic

`Q_IDX(llq, p) = (p) & ((1 << (llq)->max_n_shift) - 1)`
`Q_WRP(llq, p) = (p) & (1 << (llq)->max_n_shift)`
`Q_OVERFLOW_FLAG = 1U << 31`, `Q_OVF(p) = (p) & Q_OVERFLOW_FLAG`. -/

def Q_IDX (shift p : Nat) : Nat := p &&& ((1 <<< shift) - 1)

def Q_WRP (shift p : Nat) : Nat := p &&& (1 <<< shift)

def Q_OVERFLOW_FLAG : Nat := 1 <<< 31

def Q_OVF (p : Nat) : Nat := p &&& Q_OVERFLOW_FLAG

/-- The (wrap, position) part of a producer/consumer word, the expression
`Q_WRP(q, p) | Q_IDX(q, p)` the driver uses in `queue_inc_prod_n` and
`queue_inc_cons`. -/
def wrpIdx (shift p : Nat) : Nat := Q_WRP shift p ||| Q_IDX shift p

/-- `struct arm_smmu_ll_queue`: the shadow producer/consumer words plus the
size exponent (`max_n_shift`); capacity is `1 << max_n_shift`. -/
structure LLQueue where
  max_n_shift : Nat
  prod : Nat
  cons : Nat
deriving DecidableEq

/-- u32 subtraction `a - b` as the C abstract machine computes it. -/
def sub32 (a b : Nat) : Nat := (a + (4294967296 - b % 4294967296)) % 4294967296

/-- `queue_has_space(q, n)`: free-slot computation of the driver, with u32
wrap-around arithmetic made explicit. -/
def queue_has_space (q : LLQueue) (n : Nat) : Bool :=
  let prod := Q_IDX q.max_n_shift q.prod
  let cons := Q_IDX q.max_n_shift q.cons
  let space :=
    if Q_WRP q.max_n_shift q.prod = Q_WRP q.max_n_shift q.cons then
      sub32 ((1 <<< q.max_n_shift) % 4294967296) (sub32 prod cons)
    else
      sub32 cons prod
  n ≤ space

/-- `queue_full(q)`. -/
def queue_full (q : LLQueue) : Bool :=
  Q_IDX q.max_n_shift q.prod = Q_IDX q.max_n_shift q.cons ∧
  Q_WRP q.max_n_shift q.prod ≠ Q_WRP q.max_n_shift q.cons

/-- `queue_empty(q)`. -/
def queue_empty (q : LLQueue) : Bool :=
  Q_IDX q.max_n_shift q.prod = Q_IDX q.max_n_shift q.cons ∧
  Q_WRP q.max_n_shift q.prod = Q_WRP q.max_n_shift q.cons

/-- `queue_inc_prod_n(q, n)`: returns the advanced producer word. -/
def queue_inc_prod_n (q : LLQueue) (n : Nat) : Nat :=
  let prod := ((Q_WRP q.max_n_shift q.prod ||| Q_IDX q.max_n_shift q.prod) + n) % 4294967296
  Q_OVF q.prod ||| Q_WRP q.max_n_shift prod ||| Q_IDX q.max_n_shift prod

/-- `queue_inc_cons(q)`: returns the advanced consumer word. -/
def queue_inc_cons (q : LLQueue) : Nat :=
  let cons := ((Q_WRP q.max_n_shift q.cons ||| Q_IDX q.max_n_shift q.cons) + 1) % 4294967296
  Q_OVF q.cons ||| Q_WRP q.max_n_shift cons ||| Q_IDX q.max_n_shift cons

/-! ### Bridge lemmas: the masked forms versus plain modular arithmetic -/

theorem Q_IDX_eq_mod (k p : Nat) : Q_IDX k p = p % 2 ^ k := by
  simp [Q_IDX, Nat.one_shiftLeft, Nat.and_pow_two_sub_one_eq_mod]

theorem Q_IDX_lt (k p : Nat) : Q_IDX k p < 2 ^ k := by
  rw [Q_IDX_eq_mod]; exact Nat.mod_lt _ (Nat.pos_pow_of_pos _ (by omega))

theorem wrpIdx_eq_mod (k p : Nat) : wrpIdx k p = p % 2 ^ (k + 1) := by
  apply Nat.eq_of_testBit_eq
  intro i
  simp only [wrpIdx, Q_WRP, Q_IDX, Nat.one_shiftLeft, Nat.testBit_or, Nat.testBit_and,
    Nat.testBit_mod_two_pow, Nat.testBit_two_pow_sub_one, Nat.testBit_two_pow]
  cases h : p.testBit i
  · simp
  · simp only [Bool.true_and, Bool.and_true]
    by_cases h2 : i < k + 1
    · have h3 : k = i ∨ i < k := by omega
      rcases h3 with h3 | h3 <;> simp [h2, h3]
    · have h3 : ¬k = i := by omega
      have h4 : ¬i < k := by omega
      simp [h2, h3, h4]

theorem wrpIdx_lt (k p : Nat) : wrpIdx k p < 2 ^ (k + 1) := by
  rw [wrpIdx_eq_mod]; exact Nat.mod_lt _ (Nat.pos_pow_of_pos _ (by omega))

theorem Q_OVF_or_low {a m : Nat} (h : m < 2 ^ 31) : Q_OVF (a ||| m) = Q_OVF a := by
  apply Nat.eq_of_testBit_eq
  intro i
  simp only [Q_OVF, Q_OVERFLOW_FLAG, Nat.one_shiftLeft, Nat.testBit_and, Nat.testBit_or]
  by_cases hi : i = 31
  · subst hi
    rw [Nat.testBit_lt_two_pow h]
    simp
  · rw [Nat.testBit_two_pow_of_ne (by omega)]
    simp

theorem Q_OVF_idem (p : Nat) : Q_OVF (Q_OVF p) = Q_OVF p := by
  simp [Q_OVF, Nat.and_assoc]

theorem Q_OVF_eq (p : Nat) : Q_OVF p = if p.testBit 31 then 2 ^ 31 else 0 := by
  apply Nat.eq_of_testBit_eq
  intro i
  simp only [Q_OVF, Q_OVERFLOW_FLAG, Nat.one_shiftLeft, Nat.testBit_and]
  by_cases hi : i = 31
  · subst hi
    cases h : p.testBit 31 <;> simp [h, Nat.testBit_two_pow_self, Nat.zero_testBit]
  · have h31 : (31 : Nat) ≠ i := fun hh => hi hh.symm
    rw [Nat.testBit_two_pow_of_ne h31]
    cases h : p.testBit 31 <;>
      simp [h, Nat.testBit_two_pow_of_ne h31, Nat.zero_testBit]

theorem Q_OVF_lt (p : Nat) : Q_OVF p ≤ 2 ^ 31 := by
  rw [Q_OVF_eq]
  split
  · exact le_refl _
  · exact Nat.zero_le _

theorem or_ovf_mod (p m k : Nat) (hk : k + 1 ≤ 31) :
    (Q_OVF p ||| m) % 2 ^ (k + 1) = m % 2 ^ (k + 1) := by
  apply Nat.eq_of_testBit_eq
  intro i
  simp only [Nat.testBit_mod_two_pow, Nat.testBit_or]
  by_cases hi : i < k + 1
  · have : (Q_OVF p).testBit i = false := by
      simp only [Q_OVF, Q_OVERFLOW_FLAG, Nat.one_shiftLeft, Nat.testBit_and]
      rw [Nat.testBit_two_pow_of_ne (by omega)]
      simp
    simp [hi, this]
  · simp [hi]

/-- `queue_inc_prod_n` in arithmetic form: the overflow bit is copied and the
(wrap, position) pair advances by `n` modulo `2 * capacity`. -/
theorem queue_inc_prod_n_eq (q : LLQueue) (n : Nat) (hk : q.max_n_shift + 1 ≤ 31) :
    queue_inc_prod_n q n =
      Q_OVF q.prod ||| (wrpIdx q.max_n_shift q.prod + n) % 2 ^ (q.max_n_shift + 1) := by
  set k := q.max_n_shift with hkdef
  have h1 : Q_WRP k q.prod ||| Q_IDX k q.prod = wrpIdx k q.prod := rfl
  rw [queue_inc_prod_n]
  simp only [h1]
  set m := (wrpIdx k q.prod + n) % 4294967296 with hm
  rw [Nat.or_assoc]
  have h2 : Q_WRP k m ||| Q_IDX k m = wrpIdx k m := rfl
  rw [h2, wrpIdx_eq_mod]
  congr 1
  rw [hm]
  have : (4294967296 : Nat) = 2 ^ 32 := by norm_num
  rw [this, Nat.mod_mod_of_dvd _ (Nat.pow_dvd_pow 2 (by omega))]

theorem queue_inc_cons_eq (q : LLQueue) (hk : q.max_n_shift + 1 ≤ 31) :
    queue_inc_cons q =
      Q_OVF q.cons ||| (wrpIdx q.max_n_shift q.cons + 1) % 2 ^ (q.max_n_shift + 1) := by
  set k := q.max_n_shift with hkdef
  have h1 : Q_WRP k q.cons ||| Q_IDX k q.cons = wrpIdx k q.cons := rfl
  rw [queue_inc_cons]
  simp only [h1]
  set m := (wrpIdx k q.cons + 1) % 4294967296 with hm
  rw [Nat.or_assoc]
  have h2 : Q_WRP k m ||| Q_IDX k m = wrpIdx k m := rfl
  rw [h2, wrpIdx_eq_mod]
  congr 1
  rw [hm]
  have : (4294967296 : Nat) = 2 ^ 32 := by norm_num
  rw [this, Nat.mod_mod_of_dvd _ (Nat.pow_dvd_pow 2 (by omega))]

/-! ## Reachable queue states

Producer advance is guarded by `queue_has_space` (command queue reservation),
consumer advance by `!queue_empty` (`queue_remove_raw`, and the hardware also
only consumes available entries). -/

inductive QueueReach (k : Nat) : Nat → Nat → Prop where
  | init : QueueReach k 0 0
  | produce (p c n : Nat) : QueueReach k p c → queue_has_space ⟨k, p, c⟩ n = true →
      QueueReach k (queue_inc_prod_n ⟨k, p, c⟩ n) c
  | consume (p c : Nat) : QueueReach k p c → queue_empty ⟨k, p, c⟩ = false →
      QueueReach k p (queue_inc_cons ⟨k, p, c⟩)

/-! ## Spec-side free-slot / occupancy definitions (for the refinement claims)

These two follow the words of the specification, to be compared with the
driver's `queue_has_space`: "capacity − (prod_pos − cons_pos) when the wrap
bits agree and cons_pos − prod_pos when they differ", and "number of in-flight
entries = producer − consumer (mod 2×capacity accounting for wrap)". -/

def freeSlotsSpec (q : LLQueue) : Nat :=
  if Q_WRP q.max_n_shift q.prod = Q_WRP q.max_n_shift q.cons then
    2 ^ q.max_n_shift - (Q_IDX q.max_n_shift q.prod - Q_IDX q.max_n_shift q.cons)
  else
    Q_IDX q.max_n_shift q.cons - Q_IDX q.max_n_shift q.prod

def occupiedSpec (q : LLQueue) : Nat :=
  (wrpIdx q.max_n_shift q.prod + 2 ^ (q.max_n_shift + 1) - wrpIdx q.max_n_shift q.cons)
    % 2 ^ (q.max_n_shift + 1)

/-- Well-formedness of a (producer, consumer) snapshot: the consumer has not
logically passed the producer and the producer has not lapped the consumer;
this holds of every state the driver reaches (occupancy between 0 and
capacity). -/
def QueueWF (q : LLQueue) : Prop :=
  q.max_n_shift + 1 ≤ 31 ∧
  (Q_WRP q.max_n_shift q.prod = Q_WRP q.max_n_shift q.cons →
    Q_IDX q.max_n_shift q.cons ≤ Q_IDX q.max_n_shift q.prod) ∧
  (Q_WRP q.max_n_shift q.prod ≠ Q_WRP q.max_n_shift q.cons →
    Q_IDX q.max_n_shift q.prod ≤ Q_IDX q.max_n_shift q.cons)

theorem sub32_eq {a b : Nat} (hb : b ≤ a) (ha : a < 4294967296) : sub32 a b = a - b := by
  simp only [sub32]
  omega

/-- C10: every queue index increment preserves the top flag bit: for every
starting 32-bit index and every count `n`, `queue_inc_prod_n` and
`queue_inc_cons` leave the overflow bit `Q_OVF` (reused by the command queue
as its OWNED flag) unchanged while advancing the (wrap, position) pair by the
count modulo `2 × capacity`. -/
theorem queue_inc_frame (q : LLQueue) (n : Nat) (h : q.max_n_shift + 1 ≤ 31) :
    Q_OVF (queue_inc_prod_n q n) = Q_OVF q.prod ∧
    wrpIdx q.max_n_shift (queue_inc_prod_n q n)
      = (wrpIdx q.max_n_shift q.prod + n) % 2 ^ (q.max_n_shift + 1) ∧
    Q_OVF (queue_inc_cons q) = Q_OVF q.cons ∧
    wrpIdx q.max_n_shift (queue_inc_cons q)
      = (wrpIdx q.max_n_shift q.cons + 1) % 2 ^ (q.max_n_shift + 1) := by
  set k := q.max_n_shift with hk
  have hpow : 2 ^ (k + 1) ≤ 2 ^ 31 := Nat.pow_le_pow_right (by norm_num) h
  have hmp : (wrpIdx k q.prod + n) % 2 ^ (k + 1) < 2 ^ 31 :=
    lt_of_lt_of_le (Nat.mod_lt _ (Nat.pos_pow_of_pos _ (by omega))) hpow
  have hmc : (wrpIdx k q.cons + 1) % 2 ^ (k + 1) < 2 ^ 31 :=
    lt_of_lt_of_le (Nat.mod_lt _ (Nat.pos_pow_of_pos _ (by omega))) hpow
  refine ⟨?_, ?_, ?_, ?_⟩
  · rw [queue_inc_prod_n_eq q n h, Q_OVF_or_low hmp, Q_OVF_idem]
  · rw [queue_inc_prod_n_eq q n h, wrpIdx_eq_mod, or_ovf_mod _ _ _ h]
    exact Nat.mod_mod_of_dvd _ dvd_rfl
  · rw [queue_inc_cons_eq q h, Q_OVF_or_low hmc, Q_OVF_idem]
  · rw [queue_inc_cons_eq q h, wrpIdx_eq_mod, or_ovf_mod _ _ _ h]
    exact Nat.mod_mod_of_dvd _ dvd_rfl

/-- C10 witness: evaluating the frame property at shift 2, prod 5, cons 1,
n 3. -/
theorem queue_inc_frame_witness :
    (2 : Nat) + 1 ≤ 31 ∧
    (Q_OVF (queue_inc_prod_n ⟨2, 5, 1⟩ 3) = Q_OVF 5 ∧
     wrpIdx 2 (queue_inc_prod_n ⟨2, 5, 1⟩ 3) = (wrpIdx 2 5 + 3) % 2 ^ 3 ∧
     Q_OVF (queue_inc_cons ⟨2, 5, 1⟩) = Q_OVF 1 ∧
     wrpIdx 2 (queue_inc_cons ⟨2, 5, 1⟩) = (wrpIdx 2 1 + 1) % 2 ^ 3) :=
  ⟨by norm_num, queue_inc_frame ⟨2, 5, 1⟩ 3 (by norm_num)⟩

/-- C6 counterexample: the reachable state shift 2, producer 3, consumer 1
(three slots produced, one consumed) is neither full nor empty, so
`queue_full` and `queue_empty` are not collectively exhaustive over reachable
pairs. -/
theorem queue_full_empty_not_exhaustive :
    QueueReach 2 3 1 ∧ queue_full ⟨2, 3, 1⟩ = false ∧ queue_empty ⟨2, 3, 1⟩ = false := by
  refine ⟨?_, by decide, by decide⟩
  have h1 := QueueReach.produce (k := 2) 0 0 3 QueueReach.init (by decide)
  have e1 : queue_inc_prod_n ⟨2, 0, 0⟩ 3 = 3 := by decide
  rw [e1] at h1
  have h2 := QueueReach.consume (k := 2) 3 0 h1 (by decide)
  have e2 : queue_inc_cons ⟨2, 3, 0⟩ = 1 := by decide
  rw [e2] at h2
  exact h2

/-- C6 amended: `queue_full` and `queue_empty` are mutually exclusive on every
(producer, consumer) pair and are characterised by equality of position
indices with, respectively, differing and agreeing wrap bits; they are
exhaustive exactly on the pairs whose position indices are equal (not on all
reachable pairs). -/
theorem queue_full_empty_excl (q : LLQueue) :
    (¬(queue_full q = true ∧ queue_empty q = true)) ∧
    (queue_full q = true ↔
      (Q_IDX q.max_n_shift q.prod = Q_IDX q.max_n_shift q.cons ∧
       Q_WRP q.max_n_shift q.prod ≠ Q_WRP q.max_n_shift q.cons)) ∧
    (queue_empty q = true ↔
      (Q_IDX q.max_n_shift q.prod = Q_IDX q.max_n_shift q.cons ∧
       Q_WRP q.max_n_shift q.prod = Q_WRP q.max_n_shift q.cons)) ∧
    (Q_IDX q.max_n_shift q.prod = Q_IDX q.max_n_shift q.cons →
      (queue_full q = true ∨ queue_empty q = true)) := by
  refine ⟨?_, by simp [queue_full], by simp [queue_empty], ?_⟩
  · simp only [queue_full, queue_empty, decide_eq_true_eq]
    tauto
  · intro h
    simp only [queue_full, queue_empty, decide_eq_true_eq]
    by_cases hw : Q_WRP q.max_n_shift q.prod = Q_WRP q.max_n_shift q.cons
    · exact Or.inr ⟨h, hw⟩
    · exact Or.inl ⟨h, hw⟩

/-- C4 counterexample: in the spec's own example (capacity 4, producer
(wrap 0, pos 3), consumer (wrap 0, pos 1)) the code computes 2 free slots, so
`queue_has_space` with n = 2 returns true, not false as claimed. -/
theorem queue_has_space_example_refuted :
    ¬(queue_has_space ⟨2, 3, 1⟩ 2 = false) := by decide

/-- C4 amended: `queue_has_space(q, n)` returns whether the wrap-aware
free-slot count (capacity − (prod_pos − cons_pos) with agreeing wrap bits,
cons_pos − prod_pos otherwise) is at least `n`; in the example (capacity 4,
producer (wrap 0, pos 3), consumer (wrap 0, pos 1)) the queue holds 2
entries, and both hasSpace(1) and hasSpace(2) are true. -/
theorem queue_has_space_correct :
    (∀ (q : LLQueue) (n : Nat), QueueWF q →
      (queue_has_space q n = true ↔ n ≤ freeSlotsSpec q)) ∧
    occupiedSpec ⟨2, 3, 1⟩ = 2 ∧
    queue_has_space ⟨2, 3, 1⟩ 1 = true ∧ queue_has_space ⟨2, 3, 1⟩ 2 = true := by
  refine ⟨?_, by decide, by decide, by decide⟩
  rintro q n ⟨hk, heq, hne⟩
  set k := q.max_n_shift with hkdef
  have hpow : 2 ^ k ≤ 2 ^ 30 := Nat.pow_le_pow_right (by norm_num) (by omega)
  have h30 : (2 : Nat) ^ 30 = 1073741824 := by norm_num
  have hP : Q_IDX k q.prod < 2 ^ k := Q_IDX_lt k q.prod
  have hC : Q_IDX k q.cons < 2 ^ k := Q_IDX_lt k q.cons
  simp only [queue_has_space, freeSlotsSpec, ← hkdef]
  by_cases hw : Q_WRP k q.prod = Q_WRP k q.cons
  · have hle := heq hw
    rw [if_pos hw, if_pos hw, Nat.one_shiftLeft]
    rw [Nat.mod_eq_of_lt (by omega), sub32_eq hle (by omega),
      sub32_eq (by omega) (by omega)]
    simp
  · have hle := hne hw
    rw [if_neg hw, if_neg hw, sub32_eq hle (by omega)]
    simp

/-- C4 witness: evaluating the amended equivalence at the example state with
n = 2. -/
theorem queue_has_space_correct_witness :
    QueueWF ⟨2, 3, 1⟩ ∧ (queue_has_space ⟨2, 3, 1⟩ 2 = true ↔ 2 ≤ freeSlotsSpec ⟨2, 3, 1⟩) :=
  ⟨⟨by norm_num, by decide, by decide⟩,
   queue_has_space_correct.1 ⟨2, 3, 1⟩ 2 ⟨by norm_num, by decide, by decide⟩⟩

/-! ## Commands: `arm_smmu_cmdq_build_cmd` and `arm_smmu_cmdq_skip_err`

Bitfields are modelled as (high, low) bit positions; `FIELD_PREP`/`FIELD_GET`
are the kernel helpers specialised to them. -/

def GENMASK (h l : Nat) : Nat := ((1 <<< (h + 1 - l)) - 1) <<< l

def FIELD_PREP (f : Nat × Nat) (v : Nat) : Nat := (v <<< f.2) &&& GENMASK f.1 f.2

def FIELD_GET (f : Nat × Nat) (v : Nat) : Nat := (v &&& GENMASK f.1 f.2) >>> f.2

def CMDQ_CONS_ERR : Nat × Nat := (30, 24)
def CMDQ_ERR_CERROR_NONE_IDX : Nat := 0
def CMDQ_ERR_CERROR_ILL_IDX : Nat := 1
def CMDQ_ERR_CERROR_ABT_IDX : Nat := 2

def CMDQ_0_OP : Nat × Nat := (7, 0)
def CMDQ_0_SSV : Nat × Nat := (11, 11)
def CMDQ_PREFETCH_0_SID : Nat × Nat := (63, 32)
def CMDQ_PREFETCH_1_SIZE : Nat × Nat := (4, 0)
def CMDQ_PREFETCH_1_ADDR_MASK : Nat := GENMASK 63 12
def CMDQ_CFGI_0_SSID : Nat × Nat := (31, 12)
def CMDQ_CFGI_0_SID : Nat × Nat := (63, 32)
def CMDQ_CFGI_1_LEAF : Nat × Nat := (0, 0)
def CMDQ_CFGI_1_RANGE : Nat × Nat := (4, 0)
def CMDQ_TLBI_0_VMID : Nat × Nat := (47, 32)
def CMDQ_TLBI_0_ASID : Nat × Nat := (63, 48)
def CMDQ_TLBI_1_LEAF : Nat × Nat := (0, 0)
def CMDQ_TLBI_1_VA_MASK : Nat := GENMASK 63 12
def CMDQ_TLBI_1_IPA_MASK : Nat := GENMASK 51 12
def CMDQ_PRI_0_SSID : Nat × Nat := (31, 12)
def CMDQ_PRI_0_SID : Nat × Nat := (63, 32)
def CMDQ_PRI_1_GRPID : Nat × Nat := (8, 0)
def CMDQ_PRI_1_RESP : Nat × Nat := (13, 12)
def CMDQ_RESUME_0_SID : Nat × Nat := (63, 32)
def CMDQ_RESUME_0_ACTION_RETRY : Nat := 1 <<< 12
def CMDQ_RESUME_0_ACTION_ABORT : Nat := 1 <<< 13
def CMDQ_RESUME_1_STAG : Nat × Nat := (15, 0)
def CMDQ_SYNC_0_CS : Nat × Nat := (13, 12)
def CMDQ_SYNC_0_CS_IRQ : Nat := 1
def CMDQ_SYNC_0_CS_SEV : Nat := 2
def CMDQ_SYNC_0_MSH : Nat × Nat := (23, 22)
def CMDQ_SYNC_0_MSIATTR : Nat × Nat := (27, 24)
def CMDQ_SYNC_1_MSIADDR_MASK : Nat := GENMASK 51 2

def ARM_SMMU_SH_ISH : Nat := 3
def ARM_SMMU_MEMATTR_OIWB : Nat := 0xf

def CMDQ_OP_PREFETCH_CFG : Nat := 0x1
def CMDQ_OP_CFGI_STE : Nat := 0x3
def CMDQ_OP_CFGI_ALL : Nat := 0x4
def CMDQ_OP_CFGI_CD : Nat := 0x5
def CMDQ_OP_CFGI_CD_ALL : Nat := 0x6
def CMDQ_OP_TLBI_NH_ASID : Nat := 0x11
def CMDQ_OP_TLBI_NH_VA : Nat := 0x12
def CMDQ_OP_TLBI_EL2_ALL : Nat := 0x20
def CMDQ_OP_TLBI_EL2_ASID : Nat := 0x21
def CMDQ_OP_TLBI_EL2_VA : Nat := 0x22
def CMDQ_OP_TLBI_S12_VMALL : Nat := 0x28
def CMDQ_OP_TLBI_S2_IPA : Nat := 0x2a
def CMDQ_OP_TLBI_NSNH_ALL : Nat := 0x30
def CMDQ_OP_PRI_RESP : Nat := 0x41
def CMDQ_OP_RESUME : Nat := 0x44
def CMDQ_OP_CMD_SYNC : Nat := 0x46

def PRI_RESP_DENY : Nat := 0
def PRI_RESP_FAIL : Nat := 1
def PRI_RESP_SUCC : Nat := 2

/-- `enum page_response_code` values (from the kernel iommu header). -/
def IOMMU_PAGE_RESP_SUCCESS : Nat := 0
def IOMMU_PAGE_RESP_INVALID : Nat := 1
def IOMMU_PAGE_RESP_FAILURE : Nat := 2

/-- `struct arm_smmu_cmdq_ent`, with the union flattened into prefixed
fields. -/
structure CmdqEnt where
  opcode : Nat := 0
  substream_valid : Bool := false
  prefetch_sid : Nat := 0
  prefetch_size : Nat := 0
  prefetch_addr : Nat := 0
  cfgi_sid : Nat := 0
  cfgi_ssid : Nat := 0
  cfgi_leaf : Bool := false
  tlbi_asid : Nat := 0
  tlbi_vmid : Nat := 0
  tlbi_leaf : Bool := false
  tlbi_addr : Nat := 0
  pri_sid : Nat := 0
  pri_ssid : Nat := 0
  pri_grpid : Nat := 0
  pri_resp : Nat := 0
  resume_sid : Nat := 0
  resume_stag : Nat := 0
  resume_resp : Nat := 0
  sync_msiaddr : Nat := 0

/-- `arm_smmu_cmdq_build_cmd`: builds the two command dwords; `none` stands
for the -EINVAL / -ENOENT returns. The C switch fallthroughs (CFGI_CD into
CFGI_STE, TLBI_NH_ASID into TLBI_S12_VMALL) are written out explicitly. -/
def arm_smmu_cmdq_build_cmd (ent : CmdqEnt) : Option (Nat × Nat) :=
  let cmd0 := FIELD_PREP CMDQ_0_OP ent.opcode
  if ent.opcode = CMDQ_OP_TLBI_EL2_ALL ∨ ent.opcode = CMDQ_OP_TLBI_NSNH_ALL then
    some (cmd0, 0)
  else if ent.opcode = CMDQ_OP_PREFETCH_CFG then
    some (cmd0 ||| FIELD_PREP CMDQ_PREFETCH_0_SID ent.prefetch_sid,
      FIELD_PREP CMDQ_PREFETCH_1_SIZE ent.prefetch_size |||
        (ent.prefetch_addr &&& CMDQ_PREFETCH_1_ADDR_MASK))
  else if ent.opcode = CMDQ_OP_CFGI_CD then
    some (cmd0 ||| FIELD_PREP CMDQ_CFGI_0_SSID ent.cfgi_ssid |||
        FIELD_PREP CMDQ_CFGI_0_SID ent.cfgi_sid,
      FIELD_PREP CMDQ_CFGI_1_LEAF (if ent.cfgi_leaf then 1 else 0))
  else if ent.opcode = CMDQ_OP_CFGI_STE then
    some (cmd0 ||| FIELD_PREP CMDQ_CFGI_0_SID ent.cfgi_sid,
      FIELD_PREP CMDQ_CFGI_1_LEAF (if ent.cfgi_leaf then 1 else 0))
  else if ent.opcode = CMDQ_OP_CFGI_CD_ALL then
    some (cmd0 ||| FIELD_PREP CMDQ_CFGI_0_SID ent.cfgi_sid, 0)
  else if ent.opcode = CMDQ_OP_CFGI_ALL then
    some (cmd0, FIELD_PREP CMDQ_CFGI_1_RANGE 31)
  else if ent.opcode = CMDQ_OP_TLBI_NH_VA ∨ ent.opcode = CMDQ_OP_TLBI_EL2_VA then
    some (cmd0 ||| FIELD_PREP CMDQ_TLBI_0_ASID ent.tlbi_asid,
      FIELD_PREP CMDQ_TLBI_1_LEAF (if ent.tlbi_leaf then 1 else 0) |||
        (ent.tlbi_addr &&& CMDQ_TLBI_1_VA_MASK))
  else if ent.opcode = CMDQ_OP_TLBI_S2_IPA then
    some (cmd0 ||| FIELD_PREP CMDQ_TLBI_0_VMID ent.tlbi_vmid,
      FIELD_PREP CMDQ_TLBI_1_LEAF (if ent.tlbi_leaf then 1 else 0) |||
        (ent.tlbi_addr &&& CMDQ_TLBI_1_IPA_MASK))
  else if ent.opcode = CMDQ_OP_TLBI_NH_ASID then
    some (cmd0 ||| FIELD_PREP CMDQ_TLBI_0_ASID ent.tlbi_asid |||
        FIELD_PREP CMDQ_TLBI_0_VMID ent.tlbi_vmid, 0)
  else if ent.opcode = CMDQ_OP_TLBI_S12_VMALL then
    some (cmd0 ||| FIELD_PREP CMDQ_TLBI_0_VMID ent.tlbi_vmid, 0)
  else if ent.opcode = CMDQ_OP_TLBI_EL2_ASID then
    some (cmd0 ||| FIELD_PREP CMDQ_TLBI_0_ASID ent.tlbi_asid, 0)
  else if ent.opcode = CMDQ_OP_PRI_RESP then
    if ent.pri_resp = PRI_RESP_DENY ∨ ent.pri_resp = PRI_RESP_FAIL ∨
        ent.pri_resp = PRI_RESP_SUCC then
      some (cmd0 ||| FIELD_PREP CMDQ_0_SSV (if ent.substream_valid then 1 else 0) |||
          FIELD_PREP CMDQ_PRI_0_SSID ent.pri_ssid ||| FIELD_PREP CMDQ_PRI_0_SID ent.pri_sid,
        FIELD_PREP CMDQ_PRI_1_GRPID ent.pri_grpid ||| FIELD_PREP CMDQ_PRI_1_RESP ent.pri_resp)
    else
      none
  else if ent.opcode = CMDQ_OP_RESUME then
    if ent.resume_resp = IOMMU_PAGE_RESP_INVALID ∨
        ent.resume_resp = IOMMU_PAGE_RESP_FAILURE then
      some (cmd0 ||| FIELD_PREP CMDQ_RESUME_0_SID ent.resume_sid |||
          CMDQ_RESUME_0_ACTION_ABORT,
        FIELD_PREP CMDQ_RESUME_1_STAG ent.resume_stag)
    else if ent.resume_resp = IOMMU_PAGE_RESP_SUCCESS then
      some (cmd0 ||| FIELD_PREP CMDQ_RESUME_0_SID ent.resume_sid |||
          CMDQ_RESUME_0_ACTION_RETRY,
        FIELD_PREP CMDQ_RESUME_1_STAG ent.resume_stag)
    else
      none
  else if ent.opcode = CMDQ_OP_CMD_SYNC then
    let c0 :=
      if ent.sync_msiaddr ≠ 0 then
        cmd0 ||| FIELD_PREP CMDQ_SYNC_0_CS CMDQ_SYNC_0_CS_IRQ
      else
        cmd0 ||| FIELD_PREP CMDQ_SYNC_0_CS CMDQ_SYNC_0_CS_SEV
    let c1 := if ent.sync_msiaddr ≠ 0 then ent.sync_msiaddr &&& CMDQ_SYNC_1_MSIADDR_MASK else 0
    some (c0 ||| FIELD_PREP CMDQ_SYNC_0_MSH ARM_SMMU_SH_ISH |||
        FIELD_PREP CMDQ_SYNC_0_MSIATTR ARM_SMMU_MEMATTR_OIWB, c1)
  else
    none

/-- Command queue state visible to `arm_smmu_cmdq_skip_err`: the ring memory
(one two-dword entry per slot) and the shadow state it must not touch. -/
structure CmdqMemSt where
  max_n_shift : Nat
  mem : Nat → Nat × Nat
  llq_prod : Nat
  llq_cons : Nat
  valid_map : Nat → Nat

/-- `arm_smmu_cmdq_skip_err`, given the value read from the hardware consumer
register. The C switch returns unchanged for CERROR_NONE and (after logging
"retrying command fetch") for CERROR_ABT; for CERROR_ILL and unknown codes it
falls through, reads the offending entry for diagnostics and overwrites the
slot with a CMD_SYNC. -/
def arm_smmu_cmdq_skip_err (st : CmdqMemSt) (cons_reg : Nat) : CmdqMemSt :=
  let idx := FIELD_GET CMDQ_CONS_ERR cons_reg
  if idx = CMDQ_ERR_CERROR_ABT_IDX ∨ idx = CMDQ_ERR_CERROR_NONE_IDX then
    st
  else
    match arm_smmu_cmdq_build_cmd { opcode := CMDQ_OP_CMD_SYNC } with
    | none => st
    | some cmd =>
      { st with
        mem := fun i => if i = Q_IDX st.max_n_shift cons_reg then cmd else st.mem i }

/-- Evaluation of the CMD_SYNC command built by the error-recovery path (no
MSI write-back address). -/
theorem build_cmd_sync_eval :
    arm_smmu_cmdq_build_cmd { opcode := CMDQ_OP_CMD_SYNC } =
      some (FIELD_PREP CMDQ_0_OP CMDQ_OP_CMD_SYNC |||
        FIELD_PREP CMDQ_SYNC_0_CS CMDQ_SYNC_0_CS_SEV |||
        FIELD_PREP CMDQ_SYNC_0_MSH ARM_SMMU_SH_ISH |||
        FIELD_PREP CMDQ_SYNC_0_MSIATTR ARM_SMMU_MEMATTR_OIWB, 0) := by
  decide

/-- C5 counterexample: on an abort-on-command-fetch error (CERROR_ABT, code 2)
`arm_smmu_cmdq_skip_err` logs "retrying command fetch" and returns without
overwriting the slot: the entry at the consumer index stays (0, 0), which is
not the CMD_SYNC encoding the claim requires. -/
theorem cmdq_skip_err_abort_refuted :
    FIELD_GET CMDQ_CONS_ERR (2 <<< 24 ||| 5) = CMDQ_ERR_CERROR_ABT_IDX ∧
    (arm_smmu_cmdq_skip_err ⟨4, fun _ => (0, 0), 7, 7, fun _ => 0⟩
        (2 <<< 24 ||| 5)).mem 5 = (0, 0) ∧
    arm_smmu_cmdq_build_cmd { opcode := CMDQ_OP_CMD_SYNC } ≠ some (0, 0) := by
  decide

/-- C5 amended: on an illegal-command (or unknown) consumption error the slot
at the hardware consumer index is overwritten in place with a CMD_SYNC and all
other slots and the shadow state (shadow producer/consumer, valid bitmap) are
untouched; on abort-on-fetch and no-error codes nothing at all is modified. -/
theorem cmdq_skip_err_correct (st : CmdqMemSt) (cons_reg : Nat) :
    ((FIELD_GET CMDQ_CONS_ERR cons_reg = CMDQ_ERR_CERROR_ABT_IDX ∨
      FIELD_GET CMDQ_CONS_ERR cons_reg = CMDQ_ERR_CERROR_NONE_IDX) →
      arm_smmu_cmdq_skip_err st cons_reg = st) ∧
    (FIELD_GET CMDQ_CONS_ERR cons_reg ≠ CMDQ_ERR_CERROR_ABT_IDX →
     FIELD_GET CMDQ_CONS_ERR cons_reg ≠ CMDQ_ERR_CERROR_NONE_IDX →
      ∃ cmd, arm_smmu_cmdq_build_cmd { opcode := CMDQ_OP_CMD_SYNC } = some cmd ∧
        (arm_smmu_cmdq_skip_err st cons_reg).mem (Q_IDX st.max_n_shift cons_reg) = cmd ∧
        (∀ i, i ≠ Q_IDX st.max_n_shift cons_reg →
          (arm_smmu_cmdq_skip_err st cons_reg).mem i = st.mem i) ∧
        (arm_smmu_cmdq_skip_err st cons_reg).llq_prod = st.llq_prod ∧
        (arm_smmu_cmdq_skip_err st cons_reg).llq_cons = st.llq_cons ∧
        (arm_smmu_cmdq_skip_err st cons_reg).valid_map = st.valid_map) := by
  constructor
  · intro h
    simp only [arm_smmu_cmdq_skip_err, if_pos h]
  · intro h1 h2
    have hcond : ¬(FIELD_GET CMDQ_CONS_ERR cons_reg = CMDQ_ERR_CERROR_ABT_IDX ∨
        FIELD_GET CMDQ_CONS_ERR cons_reg = CMDQ_ERR_CERROR_NONE_IDX) := by
      rintro (h | h)
      · exact h1 h
      · exact h2 h
    refine ⟨_, build_cmd_sync_eval, ?_, ?_, ?_, ?_, ?_⟩ <;>
      simp only [arm_smmu_cmdq_skip_err, if_neg hcond, build_cmd_sync_eval] <;>
      first
        | rfl
        | (intro i hi; simp [hi])

/-- C5 witness: evaluating the amended theorem on an illegal-command error at
slot 5 of a 16-slot queue. -/
theorem cmdq_skip_err_correct_witness :
    ∃ cmd, arm_smmu_cmdq_build_cmd { opcode := CMDQ_OP_CMD_SYNC } = some cmd ∧
      (arm_smmu_cmdq_skip_err ⟨4, fun _ => (0, 0), 7, 7, fun _ => 0⟩
          (1 <<< 24 ||| 5)).mem (Q_IDX 4 (1 <<< 24 ||| 5)) = cmd ∧
      (∀ i, i ≠ Q_IDX 4 (1 <<< 24 ||| 5) →
        (arm_smmu_cmdq_skip_err ⟨4, fun _ => (0, 0), 7, 7, fun _ => 0⟩
            (1 <<< 24 ||| 5)).mem i = (fun _ => ((0 : Nat), (0 : Nat))) i) ∧
      (arm_smmu_cmdq_skip_err ⟨4, fun _ => (0, 0), 7, 7, fun _ => 0⟩
          (1 <<< 24 ||| 5)).llq_prod = 7 ∧
      (arm_smmu_cmdq_skip_err ⟨4, fun _ => (0, 0), 7, 7, fun _ => 0⟩
          (1 <<< 24 ||| 5)).llq_cons = 7 ∧
      (arm_smmu_cmdq_skip_err ⟨4, fun _ => (0, 0), 7, 7, fun _ => 0⟩
          (1 <<< 24 ||| 5)).valid_map = (fun _ => (0 : Nat)) :=
  (cmdq_skip_err_correct ⟨4, fun _ => (0, 0), 7, 7, fun _ => 0⟩
    (1 <<< 24 ||| 5)).2 (by decide) (by decide)

/-! ## Stream table entries: `arm_smmu_write_strtab_ent`

The 8-dword entry is a function `Nat → Nat` (dword index to value); the
function additionally returns the sequence of externally visible events, in
program order: 64-bit dword stores and commands pushed through the command
queue (`arm_smmu_sync_ste_for_sid` issues CFGI_STE then CMD_SYNC; command
payloads are elided, only opcodes are recorded). `none` models the `BUG()`
paths (corrupt STE, live-entry rewrite). -/

def STRTAB_SPLIT : Nat := 8
def STRTAB_L1_DESC_DWORDS : Nat := 1
def STRTAB_L1_DESC_SPAN : Nat × Nat := (4, 0)
def STRTAB_L1_DESC_L2PTR_MASK : Nat := GENMASK 51 6
def STRTAB_STE_DWORDS : Nat := 8
def STRTAB_STE_0_V : Nat := 1 <<< 0
def STRTAB_STE_0_CFG : Nat × Nat := (3, 1)
def STRTAB_STE_0_CFG_ABORT : Nat := 0
def STRTAB_STE_0_CFG_BYPASS : Nat := 4
def STRTAB_STE_0_CFG_S1_TRANS : Nat := 5
def STRTAB_STE_0_CFG_S2_TRANS : Nat := 6
def STRTAB_STE_0_S1FMT : Nat × Nat := (5, 4)
def STRTAB_STE_0_S1CTXPTR_MASK : Nat := GENMASK 51 6
def STRTAB_STE_0_S1CDMAX : Nat × Nat := (63, 59)
def STRTAB_STE_1_S1DSS : Nat × Nat := (1, 0)
def STRTAB_STE_1_S1DSS_SSID0 : Nat := 0x2
def STRTAB_STE_1_S1C_CACHE_WBRA : Nat := 1
def STRTAB_STE_1_S1CIR : Nat × Nat := (3, 2)
def STRTAB_STE_1_S1COR : Nat × Nat := (5, 4)
def STRTAB_STE_1_S1CSH : Nat × Nat := (7, 6)
def STRTAB_STE_1_S1STALLD : Nat := 1 <<< 27
def STRTAB_STE_1_EATS : Nat × Nat := (29, 28)
def STRTAB_STE_1_EATS_TRANS : Nat := 1
def STRTAB_STE_1_STRW : Nat × Nat := (31, 30)
def STRTAB_STE_1_STRW_NSEL1 : Nat := 0
def STRTAB_STE_1_STRW_EL2 : Nat := 2
def STRTAB_STE_1_SHCFG : Nat × Nat := (45, 44)
def STRTAB_STE_1_SHCFG_INCOMING : Nat := 1
def STRTAB_STE_2_S2VMID : Nat × Nat := (15, 0)
def STRTAB_STE_2_VTCR : Nat × Nat := (50, 32)
def STRTAB_STE_2_S2AA64 : Nat := 1 <<< 51
def STRTAB_STE_2_S2PTW : Nat := 1 <<< 54
def STRTAB_STE_2_S2R : Nat := 1 <<< 58
def STRTAB_STE_3_S2TTB_MASK : Nat := GENMASK 51 4

/-- The controller fields `arm_smmu_write_strtab_ent` consults: feature bits
`ARM_SMMU_FEAT_E2H` / `ARM_SMMU_FEAT_STALLS` / `ARM_SMMU_FEAT_STALL_FORCE`,
the `ARM_SMMU_OPT_SKIP_PREFETCH` option and the `CONFIG_PCI_ATS` build
flag. -/
structure SmmuDev where
  feat_e2h : Bool
  feat_stalls : Bool
  feat_stall_force : Bool
  opt_skip_prefetch : Bool
  pci_ats : Bool
deriving DecidableEq

/-- Stage-1 configuration (`ste->s1_cfg->tables` fields used). -/
structure S1Cfg where
  tables_base : Nat
  tables_order : Nat
  s1fmt : Nat
deriving DecidableEq

/-- Stage-2 configuration (`ste->s2_cfg`). -/
structure S2Cfg where
  vmid : Nat
  vtcr : Nat
  vttbr : Nat
deriving DecidableEq

/-- `struct arm_smmu_strtab_ent`. -/
structure StrtabEnt where
  assigned : Bool
  s1_cfg : Option S1Cfg
  s2_cfg : Option S2Cfg
  can_stall : Bool
deriving DecidableEq

inductive STEEv where
  | write (dword : Nat) (val : Nat)
  | cmd (opcode : Nat)
deriving DecidableEq

/-- The liveness scrutiny at the top of `arm_smmu_write_strtab_ent` (the
switch on `STRTAB_STE_0_CFG` when the valid bit is set); `none` is the
`BUG()` on STE corruption or on an abort configuration without
`disable_bypass`. -/
def steLiveness (disable_bypass : Bool) (val0 : Nat) : Option Bool :=
  if val0 &&& STRTAB_STE_0_V ≠ 0 then
    let cfg := FIELD_GET STRTAB_STE_0_CFG val0
    if cfg = STRTAB_STE_0_CFG_BYPASS then some false
    else if cfg = STRTAB_STE_0_CFG_S1_TRANS ∨ cfg = STRTAB_STE_0_CFG_S2_TRANS then some true
    else if cfg = STRTAB_STE_0_CFG_ABORT then
      if disable_bypass then some false else none
    else none
  else some false

def arm_smmu_write_strtab_ent (smmu : Option SmmuDev) (disable_bypass : Bool) (sid : Nat)
    (dst : Nat → Nat) (ste : StrtabEnt) : Option ((Nat → Nat) × List STEEv) :=
  match steLiveness disable_bypass (dst 0) with
  | none => none
  | some ste_live =>
    if ¬ste.assigned = true ∨ (ste.s1_cfg = none ∧ ste.s2_cfg = none) then
      let v :=
        if ¬ste.assigned = true ∧ disable_bypass = true then
          STRTAB_STE_0_V ||| FIELD_PREP STRTAB_STE_0_CFG STRTAB_STE_0_CFG_ABORT
        else
          STRTAB_STE_0_V ||| FIELD_PREP STRTAB_STE_0_CFG STRTAB_STE_0_CFG_BYPASS
      let d1 := FIELD_PREP STRTAB_STE_1_SHCFG STRTAB_STE_1_SHCFG_INCOMING
      some (fun i => if i = 0 then v else if i = 1 then d1 else if i = 2 then 0 else dst i,
        [STEEv.write 0 v, STEEv.write 1 d1, STEEv.write 2 0] ++
          (match smmu with
           | some _ => [STEEv.cmd CMDQ_OP_CFGI_STE, STEEv.cmd CMDQ_OP_CMD_SYNC]
           | none => []))
    else
      match smmu with
      | none => none
      | some s =>
        let part1 : Option ((Nat → Nat) × List STEEv × Nat) :=
          match ste.s1_cfg with
          | none => some (dst, [], 0)
          | some c =>
            if ste_live then none
            else
              let strw := if s.feat_e2h then STRTAB_STE_1_STRW_EL2 else STRTAB_STE_1_STRW_NSEL1
              let d1 := FIELD_PREP STRTAB_STE_1_S1DSS STRTAB_STE_1_S1DSS_SSID0 |||
                FIELD_PREP STRTAB_STE_1_S1CIR STRTAB_STE_1_S1C_CACHE_WBRA |||
                FIELD_PREP STRTAB_STE_1_S1COR STRTAB_STE_1_S1C_CACHE_WBRA |||
                FIELD_PREP STRTAB_STE_1_S1CSH ARM_SMMU_SH_ISH |||
                (if s.pci_ats then FIELD_PREP STRTAB_STE_1_EATS STRTAB_STE_1_EATS_TRANS else 0) |||
                FIELD_PREP STRTAB_STE_1_STRW strw
              let stall := s.feat_stalls ∧ ¬s.feat_stall_force = true ∧ ¬ste.can_stall = true
              let d1f := if stall then d1 ||| STRTAB_STE_1_S1STALLD else d1
              some (fun i => if i = 1 then d1f else dst i,
                [STEEv.write 1 d1] ++ (if stall then [STEEv.write 1 d1f] else []),
                (c.tables_base &&& STRTAB_STE_0_S1CTXPTR_MASK) |||
                  FIELD_PREP STRTAB_STE_0_CFG STRTAB_STE_0_CFG_S1_TRANS |||
                  FIELD_PREP STRTAB_STE_0_S1CDMAX c.tables_order |||
                  FIELD_PREP STRTAB_STE_0_S1FMT c.s1fmt)
        match part1 with
        | none => none
        | some (dstA, evsA, vaddA) =>
          let part2 : Option ((Nat → Nat) × List STEEv × Nat) :=
            match ste.s2_cfg with
            | none => some (dstA, [], 0)
            | some c =>
              if ste_live then none
              else
                let d2 := FIELD_PREP STRTAB_STE_2_S2VMID c.vmid |||
                  FIELD_PREP STRTAB_STE_2_VTCR c.vtcr |||
                  STRTAB_STE_2_S2PTW ||| STRTAB_STE_2_S2AA64 ||| STRTAB_STE_2_S2R
                let d3 := c.vttbr &&& STRTAB_STE_3_S2TTB_MASK
                some (fun i => if i = 2 then d2 else if i = 3 then d3 else dstA i,
                  [STEEv.write 2 d2, STEEv.write 3 d3],
                  FIELD_PREP STRTAB_STE_0_CFG STRTAB_STE_0_CFG_S2_TRANS)
          match part2 with
          | none => none
          | some (dstB, evsB, vaddB) =>
            let vfinal := STRTAB_STE_0_V ||| vaddA ||| vaddB
            some (fun i => if i = 0 then vfinal else dstB i,
              evsA ++ evsB ++
                [STEEv.cmd CMDQ_OP_CFGI_STE, STEEv.cmd CMDQ_OP_CMD_SYNC,
                 STEEv.write 0 vfinal,
                 STEEv.cmd CMDQ_OP_CFGI_STE, STEEv.cmd CMDQ_OP_CMD_SYNC] ++
              (if s.opt_skip_prefetch then [] else [STEEv.cmd CMDQ_OP_PREFETCH_CFG]))

/-- The event sequence C3 claims for a non-live → translate transition: some
order of writes covering every dword 1..7, a CFGI_STE + CMD_SYNC pair, the
single dword-0 store, and a final CFGI_STE + CMD_SYNC, with nothing else. -/
def claimedC3Trace (tr : List STEEv) : Prop :=
  ∃ ws v, tr = ws ++ [STEEv.cmd CMDQ_OP_CFGI_STE, STEEv.cmd CMDQ_OP_CMD_SYNC,
      STEEv.write 0 v, STEEv.cmd CMDQ_OP_CFGI_STE, STEEv.cmd CMDQ_OP_CMD_SYNC] ∧
    List.Perm (ws.map (fun e => match e with | STEEv.write d _ => d | STEEv.cmd _ => 0))
      [1, 2, 3, 4, 5, 6, 7]

theorem claimedC3Trace_length {tr : List STEEv} (h : claimedC3Trace tr) : tr.length = 12 := by
  obtain ⟨ws, v, htr, hperm⟩ := h
  have hl : ws.length = 7 := by
    have := hperm.length_eq
    simpa using this
  subst htr
  simp [hl]

/-! ### Bit-field helpers for reasoning about the assembled dword-0 value -/

theorem nat_or_and_right (x y m : Nat) : (x ||| y) &&& m = (x &&& m) ||| (y &&& m) := by
  apply Nat.eq_of_testBit_eq
  intro i
  simp only [Nat.testBit_and, Nat.testBit_or]
  cases hx : x.testBit i <;> cases hy : y.testBit i <;> cases hm : m.testBit i <;> simp

theorem FIELD_GET_or (f : Nat × Nat) (x y : Nat) :
    FIELD_GET f (x ||| y) = FIELD_GET f x ||| FIELD_GET f y := by
  apply Nat.eq_of_testBit_eq
  intro i
  simp only [FIELD_GET, Nat.testBit_shiftRight, Nat.testBit_and, Nat.testBit_or]
  cases hx : x.testBit (f.2 + i) <;> cases hy : y.testBit (f.2 + i) <;>
    cases hm : (GENMASK f.1 f.2).testBit (f.2 + i) <;> simp [hx, hy, hm]

theorem FIELD_GET_zero (f : Nat × Nat) : FIELD_GET f 0 = 0 := by
  simp [FIELD_GET, Nat.zero_and, Nat.zero_shiftRight]

theorem and_mask_disjoint {m1 m2 : Nat} (x : Nat) (h : m1 &&& m2 = 0) :
    (x &&& m1) &&& m2 = 0 := by
  rw [Nat.and_assoc, h, Nat.and_zero]

theorem FIELD_GET_and_disjoint (f : Nat × Nat) (x m : Nat) (h : m &&& GENMASK f.1 f.2 = 0) :
    FIELD_GET f (x &&& m) = 0 := by
  unfold FIELD_GET
  rw [and_mask_disjoint x h, Nat.zero_shiftRight]

/-- Dword-0 facts for a freshly assembled stage-1 translate value: config
field reads back S1_TRANS and the valid bit is set. -/
theorem s1_val_facts (b ord fmt : Nat) :
    FIELD_GET STRTAB_STE_0_CFG
      (STRTAB_STE_0_V ||| ((b &&& STRTAB_STE_0_S1CTXPTR_MASK) |||
        FIELD_PREP STRTAB_STE_0_CFG STRTAB_STE_0_CFG_S1_TRANS |||
        FIELD_PREP STRTAB_STE_0_S1CDMAX ord ||| FIELD_PREP STRTAB_STE_0_S1FMT fmt) ||| 0)
      = STRTAB_STE_0_CFG_S1_TRANS ∧
    (STRTAB_STE_0_V ||| ((b &&& STRTAB_STE_0_S1CTXPTR_MASK) |||
        FIELD_PREP STRTAB_STE_0_CFG STRTAB_STE_0_CFG_S1_TRANS |||
        FIELD_PREP STRTAB_STE_0_S1CDMAX ord ||| FIELD_PREP STRTAB_STE_0_S1FMT fmt) ||| 0)
      &&& STRTAB_STE_0_V = STRTAB_STE_0_V := by
  constructor
  · rw [FIELD_GET_or, FIELD_GET_or, FIELD_GET_or, FIELD_GET_or, FIELD_GET_or]
    rw [FIELD_GET_and_disjoint _ _ _ (by decide)]
    rw [show FIELD_GET STRTAB_STE_0_CFG (FIELD_PREP STRTAB_STE_0_S1CDMAX ord) = 0 from
      FIELD_GET_and_disjoint _ _ _ (by decide)]
    rw [show FIELD_GET STRTAB_STE_0_CFG (FIELD_PREP STRTAB_STE_0_S1FMT fmt) = 0 from
      FIELD_GET_and_disjoint _ _ _ (by decide)]
    rw [show FIELD_GET STRTAB_STE_0_CFG STRTAB_STE_0_V = 0 from by decide]
    rw [show FIELD_GET STRTAB_STE_0_CFG
        (FIELD_PREP STRTAB_STE_0_CFG STRTAB_STE_0_CFG_S1_TRANS) = STRTAB_STE_0_CFG_S1_TRANS
      from by decide]
    rw [FIELD_GET_zero]
    decide
  · rw [nat_or_and_right, nat_or_and_right, nat_or_and_right, nat_or_and_right, nat_or_and_right]
    rw [and_mask_disjoint b (by decide)]
    rw [show FIELD_PREP STRTAB_STE_0_CFG STRTAB_STE_0_CFG_S1_TRANS &&& STRTAB_STE_0_V = 0
      from by decide]
    rw [show FIELD_PREP STRTAB_STE_0_S1CDMAX ord &&& STRTAB_STE_0_V = 0 from
      and_mask_disjoint _ (by decide)]
    rw [show FIELD_PREP STRTAB_STE_0_S1FMT fmt &&& STRTAB_STE_0_V = 0 from
      and_mask_disjoint _ (by decide)]
    decide

/-- Dword-0 facts for a freshly assembled stage-2 translate value. -/
theorem s2_val_facts :
    FIELD_GET STRTAB_STE_0_CFG
      (STRTAB_STE_0_V ||| 0 ||| FIELD_PREP STRTAB_STE_0_CFG STRTAB_STE_0_CFG_S2_TRANS)
      = STRTAB_STE_0_CFG_S2_TRANS ∧
    (STRTAB_STE_0_V ||| 0 ||| FIELD_PREP STRTAB_STE_0_CFG STRTAB_STE_0_CFG_S2_TRANS)
      &&& STRTAB_STE_0_V = STRTAB_STE_0_V := by
  decide

/-- C3 counterexample: attaching a stage-1 config to a non-live (all-zero) STE
produces the event sequence [write dword 1, CFGI_STE, CMD_SYNC, write dword 0,
CFGI_STE, CMD_SYNC, PREFETCH_CFG]: dwords 2..7 are never written (only the
dwords carrying the new configuration are), and a trailing PREFETCH_CFG
command follows the second sync, so the trace is not of the claimed
"write every dword except 0, then exactly two invalidate/sync pairs" shape
(which forces length 12; the actual trace has length 7). -/
theorem write_strtab_ent_seq_refuted :
    (arm_smmu_write_strtab_ent (some ⟨false, false, false, false, false⟩) false 1
        (fun _ => 0) ⟨true, some ⟨4096, 0, 0⟩, none, false⟩).map (fun r => r.2)
      = some [STEEv.write 1 214, STEEv.cmd 3, STEEv.cmd 70, STEEv.write 0 4107,
              STEEv.cmd 3, STEEv.cmd 70, STEEv.cmd 1] ∧
    ¬claimedC3Trace [STEEv.write 1 214, STEEv.cmd 3, STEEv.cmd 70, STEEv.write 0 4107,
              STEEv.cmd 3, STEEv.cmd 70, STEEv.cmd 1] := by
  constructor
  · rfl
  · intro h
    have h12 := claimedC3Trace_length h
    simp at h12

/-- C3 amended: when `arm_smmu_write_strtab_ent` transitions a non-live stream
table entry to a stage-1 or stage-2 translate configuration it performs: some
stores, all to dwords other than dword 0 (dword 1 for stage-1, dwords 2-3 for
stage-2), then a CFGI_STE command followed by a CMD_SYNC, then one single
64-bit store of dword 0 carrying the validity bit and the translate config
field, then a second CFGI_STE plus CMD_SYNC, and finally - unless the
skip-prefetch option is set - a PREFETCH_CFG command. -/
theorem write_strtab_ent_attach_seq (s : SmmuDev) (db : Bool) (sid : Nat) (dst : Nat → Nat)
    (ste : StrtabEnt)
    (hlive : steLiveness db (dst 0) = some false)
    (hassigned : ste.assigned = true)
    (hcfg : (ste.s1_cfg.isSome = true ∧ ste.s2_cfg = none) ∨
            (ste.s1_cfg = none ∧ ste.s2_cfg.isSome = true)) :
    ∃ dst2 ws v,
      arm_smmu_write_strtab_ent (some s) db sid dst ste =
        some (dst2,
          ws ++ [STEEv.cmd CMDQ_OP_CFGI_STE, STEEv.cmd CMDQ_OP_CMD_SYNC,
                 STEEv.write 0 v,
                 STEEv.cmd CMDQ_OP_CFGI_STE, STEEv.cmd CMDQ_OP_CMD_SYNC] ++
          (if s.opt_skip_prefetch then [] else [STEEv.cmd CMDQ_OP_PREFETCH_CFG])) ∧
      (∀ e ∈ ws, ∃ d x, e = STEEv.write d x ∧ d ≠ 0) ∧
      v &&& STRTAB_STE_0_V = STRTAB_STE_0_V ∧
      (ste.s1_cfg.isSome = true → FIELD_GET STRTAB_STE_0_CFG v = STRTAB_STE_0_CFG_S1_TRANS) ∧
      (ste.s2_cfg.isSome = true → FIELD_GET STRTAB_STE_0_CFG v = STRTAB_STE_0_CFG_S2_TRANS) ∧
      dst2 0 = v := by
  rcases hcfg with ⟨h1, h2⟩ | ⟨h1, h2⟩
  · obtain ⟨c, hc⟩ := Option.isSome_iff_exists.mp h1
    refine ⟨fun i =>
        if i = 0 then
          STRTAB_STE_0_V ||| ((c.tables_base &&& STRTAB_STE_0_S1CTXPTR_MASK) |||
            FIELD_PREP STRTAB_STE_0_CFG STRTAB_STE_0_CFG_S1_TRANS |||
            FIELD_PREP STRTAB_STE_0_S1CDMAX c.tables_order |||
            FIELD_PREP STRTAB_STE_0_S1FMT c.s1fmt) ||| 0
        else if i = 1 then
          (if s.feat_stalls ∧ ¬s.feat_stall_force = true ∧ ¬ste.can_stall = true then
            (FIELD_PREP STRTAB_STE_1_S1DSS STRTAB_STE_1_S1DSS_SSID0 |||
              FIELD_PREP STRTAB_STE_1_S1CIR STRTAB_STE_1_S1C_CACHE_WBRA |||
              FIELD_PREP STRTAB_STE_1_S1COR STRTAB_STE_1_S1C_CACHE_WBRA |||
              FIELD_PREP STRTAB_STE_1_S1CSH ARM_SMMU_SH_ISH |||
              (if s.pci_ats then FIELD_PREP STRTAB_STE_1_EATS STRTAB_STE_1_EATS_TRANS else 0) |||
              FIELD_PREP STRTAB_STE_1_STRW
                (if s.feat_e2h then STRTAB_STE_1_STRW_EL2 else STRTAB_STE_1_STRW_NSEL1)) |||
              STRTAB_STE_1_S1STALLD
          else
            FIELD_PREP STRTAB_STE_1_S1DSS STRTAB_STE_1_S1DSS_SSID0 |||
              FIELD_PREP STRTAB_STE_1_S1CIR STRTAB_STE_1_S1C_CACHE_WBRA |||
              FIELD_PREP STRTAB_STE_1_S1COR STRTAB_STE_1_S1C_CACHE_WBRA |||
              FIELD_PREP STRTAB_STE_1_S1CSH ARM_SMMU_SH_ISH |||
              (if s.pci_ats then FIELD_PREP STRTAB_STE_1_EATS STRTAB_STE_1_EATS_TRANS else 0) |||
              FIELD_PREP STRTAB_STE_1_STRW
                (if s.feat_e2h then STRTAB_STE_1_STRW_EL2 else STRTAB_STE_1_STRW_NSEL1))
        else dst i,
      [STEEv.write 1 (FIELD_PREP STRTAB_STE_1_S1DSS STRTAB_STE_1_S1DSS_SSID0 |||
          FIELD_PREP STRTAB_STE_1_S1CIR STRTAB_STE_1_S1C_CACHE_WBRA |||
          FIELD_PREP STRTAB_STE_1_S1COR STRTAB_STE_1_S1C_CACHE_WBRA |||
          FIELD_PREP STRTAB_STE_1_S1CSH ARM_SMMU_SH_ISH |||
          (if s.pci_ats then FIELD_PREP STRTAB_STE_1_EATS STRTAB_STE_1_EATS_TRANS else 0) |||
          FIELD_PREP STRTAB_STE_1_STRW
            (if s.feat_e2h then STRTAB_STE_1_STRW_EL2 else STRTAB_STE_1_STRW_NSEL1))] ++
        (if s.feat_stalls ∧ ¬s.feat_stall_force = true ∧ ¬ste.can_stall = true then
          [STEEv.write 1 ((FIELD_PREP STRTAB_STE_1_S1DSS STRTAB_STE_1_S1DSS_SSID0 |||
            FIELD_PREP STRTAB_STE_1_S1CIR STRTAB_STE_1_S1C_CACHE_WBRA |||
            FIELD_PREP STRTAB_STE_1_S1COR STRTAB_STE_1_S1C_CACHE_WBRA |||
            FIELD_PREP STRTAB_STE_1_S1CSH ARM_SMMU_SH_ISH |||
            (if s.pci_ats then FIELD_PREP STRTAB_STE_1_EATS STRTAB_STE_1_EATS_TRANS else 0) |||
            FIELD_PREP STRTAB_STE_1_STRW
              (if s.feat_e2h then STRTAB_STE_1_STRW_EL2 else STRTAB_STE_1_STRW_NSEL1)) |||
            STRTAB_STE_1_S1STALLD)]
        else []),
      STRTAB_STE_0_V ||| ((c.tables_base &&& STRTAB_STE_0_S1CTXPTR_MASK) |||
        FIELD_PREP STRTAB_STE_0_CFG STRTAB_STE_0_CFG_S1_TRANS |||
        FIELD_PREP STRTAB_STE_0_S1CDMAX c.tables_order |||
        FIELD_PREP STRTAB_STE_0_S1FMT c.s1fmt) ||| 0,
      ?_, ?_, (s1_val_facts c.tables_base c.tables_order c.s1fmt).2,
      fun _ => (s1_val_facts c.tables_base c.tables_order c.s1fmt).1, ?_, by simp⟩
    · simp [arm_smmu_write_strtab_ent, hlive, hc, h2, hassigned]
      by_cases hstl : s.feat_stalls = true ∧ s.feat_stall_force = false ∧ ste.can_stall = false <;>
        simp [hstl]
    · intro e he
      rcases List.mem_append.mp he with he | he
      · simp only [List.mem_singleton] at he
        exact ⟨1, _, he, by decide⟩
      · by_cases hstl : (s.feat_stalls ∧ ¬s.feat_stall_force = true ∧ ¬ste.can_stall = true)
        · rw [if_pos hstl] at he
          simp only [List.mem_singleton] at he
          exact ⟨1, _, he, by decide⟩
        · rw [if_neg hstl] at he
          simp at he
    · intro hx
      rw [h2] at hx
      simp at hx
  · obtain ⟨c, hc⟩ := Option.isSome_iff_exists.mp h2
    refine ⟨fun i =>
        if i = 0 then
          STRTAB_STE_0_V ||| 0 ||| FIELD_PREP STRTAB_STE_0_CFG STRTAB_STE_0_CFG_S2_TRANS
        else if i = 2 then
          FIELD_PREP STRTAB_STE_2_S2VMID c.vmid ||| FIELD_PREP STRTAB_STE_2_VTCR c.vtcr |||
            STRTAB_STE_2_S2PTW ||| STRTAB_STE_2_S2AA64 ||| STRTAB_STE_2_S2R
        else if i = 3 then
          c.vttbr &&& STRTAB_STE_3_S2TTB_MASK
        else dst i,
      [STEEv.write 2 (FIELD_PREP STRTAB_STE_2_S2VMID c.vmid |||
          FIELD_PREP STRTAB_STE_2_VTCR c.vtcr |||
          STRTAB_STE_2_S2PTW ||| STRTAB_STE_2_S2AA64 ||| STRTAB_STE_2_S2R),
       STEEv.write 3 (c.vttbr &&& STRTAB_STE_3_S2TTB_MASK)],
      STRTAB_STE_0_V ||| 0 ||| FIELD_PREP STRTAB_STE_0_CFG STRTAB_STE_0_CFG_S2_TRANS,
      ?_, ?_, s2_val_facts.2, ?_, fun _ => s2_val_facts.1, by simp⟩
    · simp [arm_smmu_write_strtab_ent, hlive, hc, h1, hassigned]
    · intro e he
      simp only [List.mem_cons, List.not_mem_nil, or_false] at he
      rcases he with he | he
      · exact ⟨2, _, he, by decide⟩
      · exact ⟨3, _, he, by decide⟩
    · intro hx
      rw [h1] at hx
      simp at hx

/-- C3 witness: evaluating the amended sequence theorem at a concrete stage-1
attach on an all-zero entry. -/
theorem write_strtab_ent_attach_seq_witness :
    ∃ dst2 ws v,
      arm_smmu_write_strtab_ent (some ⟨false, false, false, false, false⟩) false 1
          (fun _ => 0) ⟨true, some ⟨4096, 0, 0⟩, none, false⟩ =
        some (dst2,
          ws ++ [STEEv.cmd CMDQ_OP_CFGI_STE, STEEv.cmd CMDQ_OP_CMD_SYNC,
                 STEEv.write 0 v,
                 STEEv.cmd CMDQ_OP_CFGI_STE, STEEv.cmd CMDQ_OP_CMD_SYNC] ++
          (if (false : Bool) then [] else [STEEv.cmd CMDQ_OP_PREFETCH_CFG])) ∧
      (∀ e ∈ ws, ∃ d x, e = STEEv.write d x ∧ d ≠ 0) ∧
      v &&& STRTAB_STE_0_V = STRTAB_STE_0_V ∧
      ((some (⟨4096, 0, 0⟩ : S1Cfg)).isSome = true →
        FIELD_GET STRTAB_STE_0_CFG v = STRTAB_STE_0_CFG_S1_TRANS) ∧
      ((none : Option S2Cfg).isSome = true →
        FIELD_GET STRTAB_STE_0_CFG v = STRTAB_STE_0_CFG_S2_TRANS) ∧
      dst2 0 = v :=
  write_strtab_ent_attach_seq ⟨false, false, false, false, false⟩ false 1 (fun _ => 0)
    ⟨true, some ⟨4096, 0, 0⟩, none, false⟩ (by decide) (by decide) (Or.inl ⟨by decide, rfl⟩)

/-! ## Two-level stream table: `arm_smmu_init_bypass_stes` / `arm_smmu_init_l2_strtab` -/

/-- The dword-0 value a bypass/abort initialisation writes (`disable_bypass`
selects abort). -/
def steBypassVal (db : Bool) : Nat :=
  if db then STRTAB_STE_0_V ||| FIELD_PREP STRTAB_STE_0_CFG STRTAB_STE_0_CFG_ABORT
  else STRTAB_STE_0_V ||| FIELD_PREP STRTAB_STE_0_CFG STRTAB_STE_0_CFG_BYPASS

/-- The dword-1 value of a bypass/abort entry. -/
def steShcfgVal : Nat := FIELD_PREP STRTAB_STE_1_SHCFG STRTAB_STE_1_SHCFG_INCOMING

/-- Writing one 8-dword entry back into the flat second-level block at
`base` (the pointer arithmetic `strtab += STRTAB_STE_DWORDS`). -/
def stePatch (tab : Nat → Nat) (base : Nat) (entry : Nat → Nat) : Nat → Nat :=
  fun i => if base ≤ i ∧ i < base + STRTAB_STE_DWORDS then entry (i - base) else tab i

/-- The loop of `arm_smmu_init_bypass_stes`: `nent` iterations of
`arm_smmu_write_strtab_ent(NULL, -1, strtab, &ste)` with an unassigned entry,
advancing the pointer by `STRTAB_STE_DWORDS` each time. -/
def init_bypass_aux (db : Bool) : (Nat → Nat) → Nat → Nat → Option (Nat → Nat)
  | tab, _, 0 => some tab
  | tab, base, n + 1 =>
    match arm_smmu_write_strtab_ent none db 4294967295 (fun j => tab (base + j))
        ⟨false, none, none, false⟩ with
    | none => none
    | some (entry2, _) =>
      init_bypass_aux db (stePatch tab base entry2) (base + STRTAB_STE_DWORDS) n

def arm_smmu_init_bypass_stes (db : Bool) (strtab : Nat → Nat) (nent : Nat) :
    Option (Nat → Nat) :=
  init_bypass_aux db strtab 0 nent

/-- `struct arm_smmu_strtab_l1_desc`. -/
structure L1Desc where
  span : Nat
  l2ptr_dma : Nat
  l2ptr : Option (Nat → Nat)

/-- `struct arm_smmu_strtab_cfg`: first-level table dwords plus the shadow
descriptor array. -/
structure StrtabCfg where
  strtab : Nat → Nat
  l1_desc : Nat → L1Desc

/-- `arm_smmu_write_strtab_l1_desc`. -/
def arm_smmu_write_strtab_l1_desc (desc : L1Desc) : Nat :=
  FIELD_PREP STRTAB_L1_DESC_SPAN desc.span ||| (desc.l2ptr_dma &&& STRTAB_L1_DESC_L2PTR_MASK)

/-- `arm_smmu_init_l2_strtab`: `alloc` models `dmam_alloc_coherent` (the DMA
address on success, `none` for allocation failure, the block itself is
zeroed); the result pairs the returned error code with the updated
configuration. -/
def arm_smmu_init_l2_strtab (db : Bool) (cfg : StrtabCfg) (sid : Nat) (alloc : Option Nat) :
    Option (Int × StrtabCfg) :=
  let desc := cfg.l1_desc (sid >>> STRTAB_SPLIT)
  match desc.l2ptr with
  | some _ => some (0, cfg)
  | none =>
    match alloc with
    | none =>
      some (-12,
        { cfg with l1_desc := fun j =>
            if j = sid >>> STRTAB_SPLIT then { desc with span := STRTAB_SPLIT + 1 }
            else cfg.l1_desc j })
    | some dma =>
      match arm_smmu_init_bypass_stes db (fun _ => 0) (1 <<< STRTAB_SPLIT) with
      | none => none
      | some block =>
        let desc2 : L1Desc := ⟨STRTAB_SPLIT + 1, dma, some block⟩
        some (0,
          { strtab := fun j =>
              if j = (sid >>> STRTAB_SPLIT) * STRTAB_L1_DESC_DWORDS then
                arm_smmu_write_strtab_l1_desc desc2
              else cfg.strtab j,
            l1_desc := fun j => if j = sid >>> STRTAB_SPLIT then desc2 else cfg.l1_desc j })

/-- Evaluation of one bypass-initialisation store sequence on a zeroed
entry. -/
theorem write_strtab_ent_bypass_zero (db : Bool) (sidv : Nat) (view : Nat → Nat)
    (h0 : view 0 = 0) :
    arm_smmu_write_strtab_ent none db sidv view ⟨false, none, none, false⟩ =
      some (fun i => if i = 0 then steBypassVal db else if i = 1 then steShcfgVal
          else if i = 2 then 0 else view i,
        [STEEv.write 0 (steBypassVal db), STEEv.write 1 steShcfgVal, STEEv.write 2 0]) := by
  simp only [arm_smmu_write_strtab_ent, steLiveness, h0, steBypassVal, steShcfgVal]
  norm_num

/-- Correctness of the bypass-initialisation loop on a zeroed block. -/
theorem init_bypass_aux_spec (db : Bool) :
    ∀ (n : Nat) (tab : Nat → Nat) (base : Nat),
      (∀ i, base ≤ i → tab i = 0) →
      ∃ ftab, init_bypass_aux db tab base n = some ftab ∧
        (∀ i, i < base → ftab i = tab i) ∧
        (∀ e, e < n →
          ftab (base + e * STRTAB_STE_DWORDS) = steBypassVal db ∧
          ftab (base + e * STRTAB_STE_DWORDS + 1) = steShcfgVal ∧
          ftab (base + e * STRTAB_STE_DWORDS + 2) = 0) ∧
        (∀ i, base + n * STRTAB_STE_DWORDS ≤ i → ftab i = 0) := by
  intro n
  induction n with
  | zero =>
    intro tab base hz
    exact ⟨tab, rfl, fun i _ => rfl, fun e he => absurd he (by omega),
      fun i hi => hz i (by omega)⟩
  | succ n ih =>
    intro tab base hz
    have h8 : STRTAB_STE_DWORDS = 8 := rfl
    rw [init_bypass_aux, write_strtab_ent_bypass_zero db _ _ (hz base (le_refl _))]
    have hz2 : ∀ i, base + STRTAB_STE_DWORDS ≤ i →
        stePatch tab base (fun i => if i = 0 then steBypassVal db else if i = 1 then steShcfgVal
          else if i = 2 then 0 else tab (base + i)) i = 0 := by
      intro i hi
      rw [h8] at hi
      rw [stePatch, if_neg (by rw [h8]; omega)]
      exact hz i (by omega)
    obtain ⟨ftab, heq, hlow, hmid, hhigh⟩ := ih _ (base + STRTAB_STE_DWORDS) hz2
    rw [h8] at hlow hhigh
    refine ⟨ftab, heq, ?_, ?_, ?_⟩
    · intro i hi
      rw [hlow i (by omega), stePatch, if_neg (by rw [h8]; omega)]
    · intro e he
      rw [h8]
      rcases Nat.eq_zero_or_pos e with he0 | he0
      · subst he0
        have hb0 : base + 0 * 8 = base := by omega
        rw [hb0]
        refine ⟨?_, ?_, ?_⟩ <;>
          · rw [hlow _ (by omega), stePatch, if_pos (by rw [h8]; omega)]
            simp
      · obtain ⟨e2, rfl⟩ : ∃ e2, e = e2 + 1 := ⟨e - 1, by omega⟩
        have hm := hmid e2 (by omega)
        rw [h8] at hm
        have hrw : base + (e2 + 1) * 8 = base + 8 + e2 * 8 := by ring
        rw [hrw]
        tauto
    · intro i hi
      rw [h8] at hi
      exact hhigh i (by omega)

set_option maxRecDepth 4096 in
/-- C9: on the first use of a stream-ID range, `arm_smmu_init_l2_strtab`
allocates the second-level block, initialises every one of its `2^SPLIT`
entries to the bypass/abort configuration, and the first-level descriptor it
then writes links exactly that fully initialised block; every later call for
any stream ID of the same range returns success without allocating or
modifying anything. -/
theorem init_l2_strtab_correct (db : Bool) (cfg : StrtabCfg) (sid : Nat) (dma : Nat)
    (hfresh : (cfg.l1_desc (sid >>> STRTAB_SPLIT)).l2ptr = none) :
    ∃ block cfg2,
      arm_smmu_init_l2_strtab db cfg sid (some dma) = some (0, cfg2) ∧
      (cfg2.l1_desc (sid >>> STRTAB_SPLIT)).l2ptr = some block ∧
      (cfg2.l1_desc (sid >>> STRTAB_SPLIT)).span = STRTAB_SPLIT + 1 ∧
      (∀ e, e < 1 <<< STRTAB_SPLIT →
        block (e * STRTAB_STE_DWORDS) = steBypassVal db ∧
        block (e * STRTAB_STE_DWORDS + 1) = steShcfgVal ∧
        block (e * STRTAB_STE_DWORDS + 2) = 0) ∧
      cfg2.strtab ((sid >>> STRTAB_SPLIT) * STRTAB_L1_DESC_DWORDS)
        = arm_smmu_write_strtab_l1_desc ⟨STRTAB_SPLIT + 1, dma, some block⟩ ∧
      (∀ sid2 alloc2, sid2 >>> STRTAB_SPLIT = sid >>> STRTAB_SPLIT →
        arm_smmu_init_l2_strtab db cfg2 sid2 alloc2 = some (0, cfg2)) := by
  obtain ⟨block, hbeq, hlow, hmid, hhigh⟩ :=
    init_bypass_aux_spec db (1 <<< STRTAB_SPLIT) (fun _ => 0) 0 (fun _ _ => rfl)
  have hinit : arm_smmu_init_bypass_stes db (fun _ => 0) (1 <<< STRTAB_SPLIT) = some block :=
    hbeq
  refine ⟨block,
    { strtab := fun j => if j = (sid >>> STRTAB_SPLIT) * STRTAB_L1_DESC_DWORDS then
          arm_smmu_write_strtab_l1_desc ⟨STRTAB_SPLIT + 1, dma, some block⟩
        else cfg.strtab j,
      l1_desc := fun j => if j = sid >>> STRTAB_SPLIT then ⟨STRTAB_SPLIT + 1, dma, some block⟩
        else cfg.l1_desc j },
    ?_, by simp, by simp, ?_, by simp, ?_⟩
  · simp [arm_smmu_init_l2_strtab, hfresh, hinit]
  · intro e he
    have := hmid e he
    simpa using this
  · intro sid2 alloc2 hrange
    simp [arm_smmu_init_l2_strtab, hrange]

/-- C9 witness: first-touch initialisation of the range of stream ID 260
(second-level index 1) on an empty two-level table, then a repeated call. -/
theorem init_l2_strtab_correct_witness :
    ∃ block cfg2,
      arm_smmu_init_l2_strtab false ⟨fun _ => 0, fun _ => ⟨0, 0, none⟩⟩ 260 (some 4096)
        = some (0, cfg2) ∧
      (cfg2.l1_desc (260 >>> STRTAB_SPLIT)).l2ptr = some block ∧
      (cfg2.l1_desc (260 >>> STRTAB_SPLIT)).span = STRTAB_SPLIT + 1 ∧
      (∀ e, e < 1 <<< STRTAB_SPLIT →
        block (e * STRTAB_STE_DWORDS) = steBypassVal false ∧
        block (e * STRTAB_STE_DWORDS + 1) = steShcfgVal ∧
        block (e * STRTAB_STE_DWORDS + 2) = 0) ∧
      cfg2.strtab ((260 >>> STRTAB_SPLIT) * STRTAB_L1_DESC_DWORDS)
        = arm_smmu_write_strtab_l1_desc ⟨STRTAB_SPLIT + 1, 4096, some block⟩ ∧
      (∀ sid2 alloc2, sid2 >>> STRTAB_SPLIT = 260 >>> STRTAB_SPLIT →
        arm_smmu_init_l2_strtab false cfg2 sid2 alloc2 = some (0, cfg2)) :=
  init_l2_strtab_correct false ⟨fun _ => 0, fun _ => ⟨0, 0, none⟩⟩ 260 4096 rfl

/-! ## `arm_smmu_flush_queue`

`wait_event_interruptible_locked(q->wq, queue_empty(&q->llq) || q->batch >= batch + 2)`:
the caller snapshots `batch = q->batch` (a u64) at entry and then blocks,
re-evaluating the condition under the queue lock each time the drain thread
wakes it.  The wait is modelled against the sequence of (queue state, batch
counter) pairs observed at successive evaluations. -/

def flush_queue_cond (llq : LLQueue) (batch batch0 : Nat) : Bool :=
  queue_empty llq || decide ((batch0 + 2) % 18446744073709551616 ≤ batch)

/-- The index of the observation at which the waiter returns: the first one
satisfying the wake condition. -/
def arm_smmu_flush_queue_ret (obs : Nat → LLQueue × Nat) (batch0 : Nat)
    (h : ∃ i, flush_queue_cond (obs i).1 (obs i).2 batch0 = true) : Nat :=
  Nat.find h

/-- C7: `arm_smmu_flush_queue` blocks until the ring is empty or the batch
counter has advanced by at least two past the entry snapshot (before its
return every observed state is non-empty with fewer than two completed
batches), and it returns no later than any observation showing the second
completed batch, even if the queue is never empty (continuously refilled). -/
theorem flush_queue_two_batches (obs : Nat → LLQueue × Nat) (batch0 k : Nat)
    (hb : batch0 + 2 < 18446744073709551616)
    (hk : batch0 + 2 ≤ (obs k).2) :
    ∃ h : ∃ i, flush_queue_cond (obs i).1 (obs i).2 batch0 = true,
      arm_smmu_flush_queue_ret obs batch0 h ≤ k ∧
      flush_queue_cond (obs (arm_smmu_flush_queue_ret obs batch0 h)).1
        (obs (arm_smmu_flush_queue_ret obs batch0 h)).2 batch0 = true ∧
      (∀ j, j < arm_smmu_flush_queue_ret obs batch0 h →
        queue_empty (obs j).1 = false ∧ (obs j).2 < batch0 + 2) := by
  have hmod : (batch0 + 2) % 18446744073709551616 = batch0 + 2 := Nat.mod_eq_of_lt hb
  have hck : flush_queue_cond (obs k).1 (obs k).2 batch0 = true := by
    simp [flush_queue_cond, hmod, hk]
  refine ⟨⟨k, hck⟩, Nat.find_min' _ hck, ?_, ?_⟩
  · simp only [arm_smmu_flush_queue_ret]
    exact Nat.find_spec
      (⟨k, hck⟩ : ∃ i, flush_queue_cond (obs i).1 (obs i).2 batch0 = true)
  intro j hj
  have hnc := Nat.find_min (⟨k, hck⟩ :
    ∃ i, flush_queue_cond (obs i).1 (obs i).2 batch0 = true) hj
  simp only [flush_queue_cond, hmod, Bool.or_eq_true, decide_eq_true_eq, not_or] at hnc
  push_neg at hnc
  exact ⟨Bool.eq_false_iff.mpr hnc.1, by omega⟩

/-- C7 witness: a continuously refilled queue (never empty) with the batch
counter reaching `batch0 + 2` at observation 2. -/
theorem flush_queue_two_batches_witness :
    (0 : Nat) + 2 < 18446744073709551616 ∧
    ∃ h : ∃ i, flush_queue_cond ((fun i => (⟨2, 3, 1⟩, i)) i : LLQueue × Nat).1
        ((fun i => ((⟨2, 3, 1⟩ : LLQueue), i)) i).2 0 = true,
      arm_smmu_flush_queue_ret (fun i => (⟨2, 3, 1⟩, i)) 0 h ≤ 2 ∧
      flush_queue_cond ((fun i => ((⟨2, 3, 1⟩ : LLQueue), i))
          (arm_smmu_flush_queue_ret (fun i => (⟨2, 3, 1⟩, i)) 0 h)).1
        ((fun i => ((⟨2, 3, 1⟩ : LLQueue), i))
          (arm_smmu_flush_queue_ret (fun i => (⟨2, 3, 1⟩, i)) 0 h)).2 0 = true ∧
      (∀ j, j < arm_smmu_flush_queue_ret (fun i => (⟨2, 3, 1⟩, i)) 0 h →
        queue_empty ((fun i => ((⟨2, 3, 1⟩ : LLQueue), i)) j).1 = false ∧
        ((fun i => ((⟨2, 3, 1⟩ : LLQueue), i)) j).2 < 0 + 2) :=
  ⟨by norm_num, flush_queue_two_batches (fun i => (⟨2, 3, 1⟩, i)) 0 2 (by norm_num) (by norm_num)⟩

/-! ## DomainManager: `arm_smmu_attach_dev` / `arm_smmu_detach_dev`

Masters and domains are keyed by numeric identifiers; list membership in
`DomainD.devices` models the domain's device list (`list_add` / `list_del`
under `devices_lock`).  `arm_smmu_domain_finalise` is abstracted by the
`finaliseOk` oracle; the STE install that follows the book-keeping does not
touch the modelled state. -/

def ARM_SMMU_DOMAIN_S1 : Nat := 0
def ARM_SMMU_DOMAIN_S2 : Nat := 1
def ARM_SMMU_DOMAIN_NESTED : Nat := 2
def ARM_SMMU_DOMAIN_BYPASS : Nat := 3

/-- `struct arm_smmu_master_data`, restricted to the fields the attach /
detach book-keeping touches. -/
structure MasterD where
  smmu : Nat
  domain : Option Nat
  ste_assigned : Bool
  ste_s1 : Bool
  ste_s2 : Bool
deriving DecidableEq

/-- `struct arm_smmu_domain`, restricted likewise. -/
structure DomainD where
  smmu : Option Nat
  stage : Nat
  devices : List Nat

structure SysSt where
  masters : Nat → MasterD
  domains : Nat → DomainD

/-- `arm_smmu_detach_dev(dev)`. -/
def arm_smmu_detach_dev (st : SysSt) (dev : Nat) : SysSt :=
  let master := st.masters dev
  let st2 :=
    match master.domain with
    | none => st
    | some d =>
      { st with
        domains := fun j =>
          if j = d then { st.domains d with devices := (st.domains d).devices.erase dev }
          else st.domains j,
        masters := fun j =>
          if j = dev then { master with domain := none } else st.masters j }
  { st2 with
    masters := fun j =>
      if j = dev then { st2.masters dev with ste_assigned := false } else st2.masters j }

/-- The tail of `arm_smmu_attach_dev` after the controller checks:
`ste->assigned = true; master->domain = smmu_domain; list_add;` followed by
the stage-based s1/s2 cfg selection. -/
def attach_commit (st : SysSt) (domId dev : Nat) : Int × SysSt :=
  let stage := (st.domains domId).stage
  (0,
    { st with
      masters := fun j =>
        if j = dev then
          { st.masters dev with
            domain := some domId,
            ste_assigned := true,
            ste_s1 := stage ≠ ARM_SMMU_DOMAIN_BYPASS ∧ stage = ARM_SMMU_DOMAIN_S1,
            ste_s2 := stage ≠ ARM_SMMU_DOMAIN_BYPASS ∧ stage ≠ ARM_SMMU_DOMAIN_S1 }
        else st.masters j,
      domains := fun j =>
        if j = domId then
          { st.domains domId with devices := dev :: (st.domains domId).devices }
        else st.domains j })

/-- The body of `arm_smmu_attach_dev` under `init_mutex`, after the initial
detach-if-assigned: bind or check the controller, then commit. -/
def attach_after_detach (st1 : SysSt) (domId dev : Nat) (finaliseOk : Bool) : Int × SysSt :=
  let dom := st1.domains domId
  match dom.smmu with
  | none =>
    if finaliseOk then
      attach_commit
        { st1 with domains := fun j =>
            if j = domId then { dom with smmu := some (st1.masters dev).smmu }
            else st1.domains j } domId dev
    else
      -- finalise failed: smmu_domain->smmu is reset to NULL and we unlock
      (-22, st1)
  | some s =>
    if s ≠ (st1.masters dev).smmu then
      (-6, st1)
    else
      attach_commit st1 domId dev

/-- `arm_smmu_attach_dev(domain, dev)`: returns the error code and the new
state. `finaliseOk` models the success of `arm_smmu_domain_finalise`. -/
def arm_smmu_attach_dev (st : SysSt) (domId dev : Nat) (finaliseOk : Bool) : Int × SysSt :=
  let master := st.masters dev
  -- Already attached to a different domain? Detach first.
  let st1 := if master.ste_assigned then arm_smmu_detach_dev st dev else st
  attach_after_detach st1 domId dev finaliseOk

/-- The device-list / back-reference invariant: a device is on a domain's
list exactly when its master points back at that domain, each list holds a
device at most once, and an unassigned STE means no domain. -/
def SysInv (st : SysSt) : Prop :=
  (∀ dev d, dev ∈ (st.domains d).devices ↔ (st.masters dev).domain = some d) ∧
  (∀ d, (st.domains d).devices.Nodup) ∧
  (∀ dev, (st.masters dev).ste_assigned = false → (st.masters dev).domain = none)

theorem detach_dev_spec (st : SysSt) (dev : Nat) (hinv : SysInv st) :
    SysInv (arm_smmu_detach_dev st dev) ∧
    ((arm_smmu_detach_dev st dev).masters dev).domain = none ∧
    (∀ d, dev ∉ ((arm_smmu_detach_dev st dev).domains d).devices) := by
  obtain ⟨h1, h2, h3⟩ := hinv
  rcases hd : (st.masters dev).domain with _ | d0
  · have hst : arm_smmu_detach_dev st dev =
        { st with masters := fun j =>
            if j = dev then { st.masters dev with ste_assigned := false }
            else st.masters j } := by
      simp [arm_smmu_detach_dev, hd]
    rw [hst]
    refine ⟨⟨?_, h2, ?_⟩, by simp [hd], ?_⟩
    · intro dv d
      by_cases hj : dv = dev
      · subst hj
        simpa using h1 dv d
      · simpa [hj] using h1 dv d
    · intro dv hdv
      by_cases hj : dv = dev
      · subst hj
        simp [hd]
      · simp only [hj, if_false] at hdv ⊢
        exact h3 dv hdv
    · intro d hmem
      simp only at hmem
      have := (h1 dev d).mp hmem
      rw [hd] at this
      exact Option.noConfusion this
  · have hst : arm_smmu_detach_dev st dev =
        { st with
          domains := fun j =>
            if j = d0 then { st.domains d0 with devices := (st.domains d0).devices.erase dev }
            else st.domains j,
          masters := fun j =>
            if j = dev then { st.masters dev with domain := none, ste_assigned := false }
            else st.masters j } := by
      simp only [arm_smmu_detach_dev, hd]
      congr 1
      funext j
      by_cases hj : j = dev <;> simp [hj]
    rw [hst]
    have hmem_er : ∀ dv d, dv ∈ (if d = d0 then
        { st.domains d0 with devices := (st.domains d0).devices.erase dev }
        else st.domains d).devices ↔ (dv ≠ dev ∨ d ≠ d0) ∧ dv ∈ (st.domains d).devices := by
      intro dv d
      by_cases hdd : d = d0
      · subst hdd
        rw [if_pos rfl]
        constructor
        · intro hmem
          have := (h2 d).mem_erase_iff.mp hmem
          exact ⟨Or.inl this.1, this.2⟩
        · rintro ⟨hne | hne, hmem⟩
          · exact (h2 d).mem_erase_iff.mpr ⟨hne, hmem⟩
          · exact absurd rfl hne
      · rw [if_neg hdd]
        exact ⟨fun h => ⟨Or.inr hdd, h⟩, fun h => h.2⟩
    refine ⟨⟨?_, ?_, ?_⟩, by simp, ?_⟩
    · intro dv d
      rw [hmem_er dv d]
      by_cases hj : dv = dev
      · subst hj
        simp only [if_pos rfl]
        constructor
        · rintro ⟨hne, hmem⟩
          have := (h1 dv d).mp hmem
          rw [hd] at this
          rcases hne with hne | hne
          · exact absurd rfl hne
          · exact absurd (Option.some.inj this).symm hne
        · intro hcon
          exact Option.noConfusion hcon
      · simp only [hj, if_false]
        rw [h1 dv d]
        constructor
        · exact fun h => h.2
        · exact fun h => ⟨Or.inl hj, h⟩
    · intro d
      by_cases hdd : d = d0
      · subst hdd
        simp only [if_pos rfl]
        exact (h2 d).erase dev
      · simp only [hdd, if_false]
        exact h2 d
    · intro dv hdv
      by_cases hj : dv = dev
      · subst hj
        simp
      · simp only [hj, if_false] at hdv ⊢
        exact h3 dv hdv
    · intro d hmem
      rw [hmem_er dev d] at hmem
      obtain ⟨hne, hmem⟩ := hmem
      have := (h1 dev d).mp hmem
      rw [hd] at this
      have hdd0 : d = d0 := (Option.some.inj this).symm
      rcases hne with hne | hne
      · exact absurd rfl hne
      · exact absurd hdd0 hne

theorem attach_commit_spec (st : SysSt) (domId dev : Nat)
    (hinv : SysInv st)
    (hnone : (st.masters dev).domain = none) :
    (attach_commit st domId dev).1 = 0 ∧
    SysInv (attach_commit st domId dev).2 ∧
    dev ∈ ((attach_commit st domId dev).2.domains domId).devices ∧
    ((attach_commit st domId dev).2.masters dev).domain = some domId ∧
    (∀ d, d ≠ domId → dev ∉ ((attach_commit st domId dev).2.domains d).devices) := by
  obtain ⟨h1, h2, h3⟩ := hinv
  have hnotin : ∀ d, dev ∉ (st.domains d).devices := by
    intro d hmem
    have := (h1 dev d).mp hmem
    rw [hnone] at this
    exact Option.noConfusion this
  refine ⟨rfl, ⟨?_, ?_, ?_⟩, ?_, ?_, ?_⟩
  · intro dv d
    by_cases hj : dv = dev
    · subst hj
      by_cases hdd : d = domId
      · subst hdd
        simp [attach_commit]
      · simp only [attach_commit, if_pos rfl, hdd, if_false]
        exact iff_of_false (hnotin d) (by simp; exact fun h => hdd h.symm)
    · by_cases hdd : d = domId
      · subst hdd
        simp only [attach_commit, hj, if_false, if_pos rfl, eq_self_iff_true, if_true]
        rw [List.mem_cons]
        simp only [hj, false_or]
        exact h1 dv d
      · simp only [attach_commit, hj, if_false, hdd]
        exact h1 dv d
  · intro d
    by_cases hdd : d = domId
    · subst hdd
      simp only [attach_commit, if_pos rfl]
      exact List.Nodup.cons (hnotin d) (h2 d)
    · simp only [attach_commit, hdd, if_false]
      exact h2 d
  · intro dv hdv
    by_cases hj : dv = dev
    · subst hj
      simp [attach_commit] at hdv
    · simp only [attach_commit, hj, if_false] at hdv ⊢
      exact h3 dv hdv
  · simp [attach_commit]
  · simp [attach_commit]
  · intro d hdd
    simp only [attach_commit, hdd, if_false]
    exact hnotin d

theorem attach_after_detach_spec (st1 : SysSt) (domId dev : Nat) (finaliseOk : Bool)
    (hinvS : SysInv st1) (hnoneS : (st1.masters dev).domain = none) :
    SysInv (attach_after_detach st1 domId dev finaliseOk).2 ∧
    ((attach_after_detach st1 domId dev finaliseOk).1 = 0 →
      dev ∈ ((attach_after_detach st1 domId dev finaliseOk).2.domains domId).devices ∧
      ((attach_after_detach st1 domId dev finaliseOk).2.masters dev).domain = some domId ∧
      (∀ d, d ≠ domId →
        dev ∉ ((attach_after_detach st1 domId dev finaliseOk).2.domains d).devices)) := by
  obtain ⟨h1, h2, h3⟩ := hinvS
  rcases hsm : (st1.domains domId).smmu with _ | s
  · by_cases hf : finaliseOk = true
    · have hres : attach_after_detach st1 domId dev finaliseOk =
          attach_commit
            { st1 with domains := fun j =>
                if j = domId then { st1.domains domId with smmu := some (st1.masters dev).smmu }
                else st1.domains j } domId dev := by
        simp [attach_after_detach, hsm, hf]
      have hinv2 : SysInv
          { st1 with domains := fun j =>
              if j = domId then { st1.domains domId with smmu := some (st1.masters dev).smmu }
              else st1.domains j } := by
        refine ⟨?_, ?_, h3⟩
        · intro dv d
          by_cases hdd : d = domId
          · subst hdd
            simpa using h1 dv d
          · simpa [hdd] using h1 dv d
        · intro d
          by_cases hdd : d = domId
          · subst hdd
            simpa using h2 d
          · simpa [hdd] using h2 d
      obtain ⟨hz, hinv3, hm, hdom, hno⟩ :=
        attach_commit_spec _ domId dev hinv2 (by simpa using hnoneS)
      rw [hres]
      exact ⟨hinv3, fun _ => ⟨hm, hdom, hno⟩⟩
    · have hres : attach_after_detach st1 domId dev finaliseOk = (-22, st1) := by
        simp [attach_after_detach, hsm, hf]
      rw [hres]
      exact ⟨⟨h1, h2, h3⟩, fun h => absurd h (by norm_num)⟩
  · by_cases hs : s = (st1.masters dev).smmu
    · have hres : attach_after_detach st1 domId dev finaliseOk =
          attach_commit st1 domId dev := by
        simp [attach_after_detach, hsm, hs]
      obtain ⟨hz, hinv3, hm, hdom, hno⟩ :=
        attach_commit_spec st1 domId dev ⟨h1, h2, h3⟩ hnoneS
      rw [hres]
      exact ⟨hinv3, fun _ => ⟨hm, hdom, hno⟩⟩
    · have hres : attach_after_detach st1 domId dev finaliseOk = (-6, st1) := by
        simp [attach_after_detach, hsm, hs]
      rw [hres]
      exact ⟨⟨h1, h2, h3⟩, fun h => absurd h (by norm_num)⟩

/-- C8: if the device's stream table entry is already assigned,
`arm_smmu_attach_dev` first runs the automatic detach (removing the device
from its old domain's list and clearing `master->domain`); attach and detach
preserve the invariant that a device sits exactly on the device list of the
domain its master points at and on each list at most once; and after a
successful attach the device is on the new domain's device list and on no
other - so a device is attached to at most one domain at any time. -/
theorem attach_dev_exclusive (st : SysSt) (domId dev : Nat) (finaliseOk : Bool)
    (hinv : SysInv st) :
    SysInv (arm_smmu_detach_dev st dev) ∧
    (∀ d, dev ∉ ((arm_smmu_detach_dev st dev).domains d).devices) ∧
    SysInv (arm_smmu_attach_dev st domId dev finaliseOk).2 ∧
    ((arm_smmu_attach_dev st domId dev finaliseOk).1 = 0 →
      dev ∈ ((arm_smmu_attach_dev st domId dev finaliseOk).2.domains domId).devices ∧
      ((arm_smmu_attach_dev st domId dev finaliseOk).2.masters dev).domain = some domId ∧
      (∀ d, d ≠ domId →
        dev ∉ ((arm_smmu_attach_dev st domId dev finaliseOk).2.domains d).devices)) := by
  obtain ⟨hinvD, hnoneD, hnotinD⟩ := detach_dev_spec st dev hinv
  have hst1 : SysInv (if (st.masters dev).ste_assigned then arm_smmu_detach_dev st dev else st) ∧
      ((if (st.masters dev).ste_assigned then arm_smmu_detach_dev st dev
        else st).masters dev).domain = none := by
    by_cases ha : (st.masters dev).ste_assigned = true
    · rw [if_pos ha]
      exact ⟨hinvD, hnoneD⟩
    · rw [if_neg ha]
      exact ⟨hinv, hinv.2.2 dev (Bool.eq_false_iff.mpr ha)⟩
  have hattach : arm_smmu_attach_dev st domId dev finaliseOk =
      attach_after_detach
        (if (st.masters dev).ste_assigned then arm_smmu_detach_dev st dev else st)
        domId dev finaliseOk := rfl
  obtain ⟨hA, hB⟩ := attach_after_detach_spec _ domId dev finaliseOk hst1.1 hst1.2
  rw [hattach]
  exact ⟨hinvD, hnotinD, hA, hB⟩

/-- C8 witness: attaching device 7 to domain 1 when it is already attached to
domain 0 in a one-device well-formed state. -/
theorem attach_dev_exclusive_witness :
    SysInv (arm_smmu_detach_dev
      ⟨fun j => if j = 7 then ⟨0, some 0, true, true, false⟩ else ⟨0, none, false, false, false⟩,
       fun d => if d = 0 then ⟨some 0, 0, [7]⟩ else ⟨none, 0, []⟩⟩ 7) ∧
    (∀ d, 7 ∉ ((arm_smmu_detach_dev
      ⟨fun j => if j = 7 then ⟨0, some 0, true, true, false⟩ else ⟨0, none, false, false, false⟩,
       fun d => if d = 0 then ⟨some 0, 0, [7]⟩ else ⟨none, 0, []⟩⟩ 7).domains d).devices) ∧
    SysInv (arm_smmu_attach_dev
      ⟨fun j => if j = 7 then ⟨0, some 0, true, true, false⟩ else ⟨0, none, false, false, false⟩,
       fun d => if d = 0 then ⟨some 0, 0, [7]⟩ else ⟨none, 0, []⟩⟩ 1 7 true).2 ∧
    ((arm_smmu_attach_dev
      ⟨fun j => if j = 7 then ⟨0, some 0, true, true, false⟩ else ⟨0, none, false, false, false⟩,
       fun d => if d = 0 then ⟨some 0, 0, [7]⟩ else ⟨none, 0, []⟩⟩ 1 7 true).1 = 0 →
      7 ∈ ((arm_smmu_attach_dev
        ⟨fun j => if j = 7 then ⟨0, some 0, true, true, false⟩ else ⟨0, none, false, false, false⟩,
         fun d => if d = 0 then ⟨some 0, 0, [7]⟩ else ⟨none, 0, []⟩⟩ 1 7 true).2.domains 1).devices ∧
      ((arm_smmu_attach_dev
        ⟨fun j => if j = 7 then ⟨0, some 0, true, true, false⟩ else ⟨0, none, false, false, false⟩,
         fun d => if d = 0 then ⟨some 0, 0, [7]⟩ else ⟨none, 0, []⟩⟩ 1 7 true).2.masters 7).domain = some 1 ∧
      (∀ d, d ≠ 1 →
        7 ∉ ((arm_smmu_attach_dev
          ⟨fun j => if j = 7 then ⟨0, some 0, true, true, false⟩ else ⟨0, none, false, false, false⟩,
           fun d => if d = 0 then ⟨some 0, 0, [7]⟩ else ⟨none, 0, []⟩⟩ 1 7 true).2.domains d).devices)) :=
  attach_dev_exclusive
    ⟨fun j => if j = 7 then ⟨0, some 0, true, true, false⟩ else ⟨0, none, false, false, false⟩,
     fun d => if d = 0 then ⟨some 0, 0, [7]⟩ else ⟨none, 0, []⟩⟩ 1 7 true
    ⟨by
      intro dv d
      by_cases h7 : dv = 7 <;> by_cases h0 : d = 0 <;> simp [h7, h0]
      omega,
     by
      intro d
      by_cases h0 : d = 0 <;> simp [h0],
     by
      intro dv h
      by_cases h7 : dv = 7 <;> simp [h7] at h ⊢⟩

/-! ## The command queue valid bitmap: `__arm_smmu_cmdq_poll_set_valid_map`

The bitmap is an array of 64-bit words (`Nat → Nat`, one atomic long per
index).  The C loop advances `llq.prod` by whole-word chunks until it reaches
`eprod`; it is modelled with explicit fuel (the driver requires the queue to
hold at least `BITS_PER_LONG` entries, and for ranges spanning at most one
revolution the loop performs at most `dist` iterations, so any `fuel ≥ dist`
is enough).  In poll mode the Bool result records whether every chunk
condition held at the first read, i.e. whether the poll completes without
waiting; the map is returned unchanged. -/

def BITS_PER_LONG : Nat := 64

def BIT_WORD (n : Nat) : Nat := n / BITS_PER_LONG

def ULONG_MAX : Nat := 18446744073709551615

/-- The chunk bound of one loop iteration: `ebidx` when the final word is
reached with `sbidx < ebidx`, otherwise `BITS_PER_LONG`. -/
def chunkLimit (shift prod eprod : Nat) : Nat :=
  if BIT_WORD (Q_IDX shift prod) = BIT_WORD (Q_IDX shift eprod) ∧
      Q_IDX shift prod % BITS_PER_LONG < Q_IDX shift eprod % BITS_PER_LONG then
    Q_IDX shift eprod % BITS_PER_LONG
  else
    BITS_PER_LONG

def valid_map_loop (shift : Nat) (mset : Bool) :
    Nat → (Nat → Nat) → Nat → Nat → ((Nat → Nat) × Bool)
  | 0, map, prod, eprod => (map, prod == eprod)
  | fuel + 1, map, prod, eprod =>
    if prod = eprod then (map, true)
    else
      let swidx := BIT_WORD (Q_IDX shift prod)
      let sbidx := Q_IDX shift prod % BITS_PER_LONG
      let limit := chunkLimit shift prod eprod
      let mask := GENMASK (limit - 1) sbidx
      if mset then
        valid_map_loop shift mset fuel
          (fun w => if w = swidx then map swidx ^^^ mask else map w)
          (queue_inc_prod_n ⟨shift, prod, 0⟩ (limit - sbidx)) eprod
      else
        let valid := ((ULONG_MAX + (if Q_WRP shift prod ≠ 0 then 1 else 0))
          % 18446744073709551616) &&& mask
        let ok := map swidx &&& mask == valid
        let r := valid_map_loop shift mset fuel map
          (queue_inc_prod_n ⟨shift, prod, 0⟩ (limit - sbidx)) eprod
        (r.1, ok && r.2)

/-- `arm_smmu_cmdq_set_valid_map`: mark `[sprod, eprod)` valid. -/
def arm_smmu_cmdq_set_valid_map (shift fuel : Nat) (map : Nat → Nat)
    (sprod eprod : Nat) : Nat → Nat :=
  (valid_map_loop shift true fuel map sprod eprod).1

/-- `arm_smmu_cmdq_poll_valid_map`: true iff a poll of `[sprod, eprod)`
completes without waiting. -/
def arm_smmu_cmdq_poll_valid_map (shift fuel : Nat) (map : Nat → Nat)
    (sprod eprod : Nat) : Bool :=
  (valid_map_loop shift false fuel map sprod eprod).2

/-- The bit of the valid bitmap belonging to slot `idx`. -/
def validBit (map : Nat → Nat) (idx : Nat) : Bool :=
  (map (idx / 64)).testBit (idx % 64)

/-- The slot index reached `t` slots after producer value `prod`. -/
def slotIdx (k prod t : Nat) : Nat := (prod + t) % 2 ^ (k + 1) % 2 ^ k

/-- The wrap bit of the producer value `t` slots after `prod`. -/
def wrapBit (k prod t : Nat) : Bool := decide (2 ^ k ≤ (prod + t) % 2 ^ (k + 1))

/-- Whether slot `s` lies within `d` slots starting at producer `prod`. -/
def slotCovered (k prod d s : Nat) : Bool :=
  s < 2 ^ k && (s + 2 ^ k - prod % 2 ^ k) % 2 ^ k < d

/-! ### Modular distance arithmetic -/

theorem off_eval {M pidx s : Nat} (hpi : pidx < M) (hs : s < M) :
    (s + M - pidx) % M = if pidx ≤ s then s - pidx else s + M - pidx := by
  by_cases h : pidx ≤ s
  · rw [if_pos h]
    have h2 : s + M - pidx = (s - pidx) + M := by omega
    rw [h2, Nat.add_mod_right, Nat.mod_eq_of_lt (by omega)]
  · rw [if_neg h]
    exact Nat.mod_eq_of_lt (by omega)

theorem dist_zero {M2 prod eprod : Nat} (hM : 0 < M2) (hp : prod < M2) (he : eprod < M2)
    (h : (eprod + M2 - prod) % M2 = 0) : prod = eprod := by
  rw [off_eval hp he] at h
  by_cases hle : prod ≤ eprod
  · rw [if_pos hle] at h
    omega
  · rw [if_neg hle] at h
    omega

theorem qdist_self {M2 prod : Nat} (hM : 0 < M2) (hp : prod < M2) :
    (prod + M2 - prod) % M2 = 0 := by
  have h : prod + M2 - prod = M2 := by omega
  rw [h, Nat.mod_self]

theorem dist_congr {M2 prod eprod : Nat} (hM : 0 < M2) (hp : prod < M2) (he : eprod < M2) :
    (prod + (eprod + M2 - prod) % M2) % M2 = eprod := by
  rw [Nat.add_mod_mod]
  have h : prod + (eprod + M2 - prod) = eprod + M2 := by omega
  rw [h, Nat.add_mod_right, Nat.mod_eq_of_lt he]

theorem dist_unique {M2 p e D : Nat} (hM : 0 < M2) (hp : p < M2) (hD : D < M2) (he : e < M2)
    (h : (p + D) % M2 = e) : (e + M2 - p) % M2 = D := by
  rcases Nat.lt_or_ge (p + D) M2 with h2 | h2
  · rw [Nat.mod_eq_of_lt h2] at h
    subst h
    have h3 : p + D + M2 - p = D + M2 := by omega
    rw [h3, Nat.add_mod_right, Nat.mod_eq_of_lt hD]
  · have hlt : p + D - M2 < M2 := by omega
    have h4 : (p + D) % M2 = p + D - M2 := by
      rw [Nat.mod_eq_sub_mod h2, Nat.mod_eq_of_lt hlt]
    rw [h4] at h
    subst h
    have h6 : p + D - M2 + M2 - p = D := by omega
    rw [h6, Nat.mod_eq_of_lt hD]

theorem dist_step {M2 prod eprod s : Nat} (hM : 0 < M2) (hp : prod < M2) (he : eprod < M2)
    (hs : s ≤ (eprod + M2 - prod) % M2) :
    (eprod + M2 - (prod + s) % M2) % M2 = (eprod + M2 - prod) % M2 - s := by
  rcases le_or_lt prod eprod with hle | hlt
  · have hD : (eprod + M2 - prod) % M2 = eprod - prod := by
      have h2 : eprod + M2 - prod = (eprod - prod) + M2 := by omega
      rw [h2, Nat.add_mod_right, Nat.mod_eq_of_lt (by omega)]
    rw [hD] at hs ⊢
    have hps : (prod + s) % M2 = prod + s := Nat.mod_eq_of_lt (by omega)
    rw [hps]
    have h3 : eprod + M2 - (prod + s) = (eprod - prod - s) + M2 := by omega
    rw [h3, Nat.add_mod_right, Nat.mod_eq_of_lt (by omega)]
  · have hD : (eprod + M2 - prod) % M2 = eprod + M2 - prod :=
      Nat.mod_eq_of_lt (by omega)
    rw [hD] at hs ⊢
    rcases Nat.lt_or_ge (prod + s) M2 with h2 | h2
    · rw [Nat.mod_eq_of_lt h2]
      have h3 : eprod + M2 - (prod + s) = eprod + M2 - prod - s := by omega
      rw [h3, Nat.mod_eq_of_lt (by omega)]
    · have hps : (prod + s) % M2 = prod + s - M2 := by
        rw [Nat.mod_eq_sub_mod h2, Nat.mod_eq_of_lt (by omega)]
      rw [hps]
      have h5 : eprod + M2 - (prod + s - M2) = (eprod + M2 - prod - s) + M2 := by omega
      rw [h5, Nat.add_mod_right, Nat.mod_eq_of_lt (by omega)]

theorem queue_inc_small {k prod : Nat} (n : Nat) (hk : k + 1 ≤ 31) (hp : prod < 2 ^ (k + 1)) :
    queue_inc_prod_n ⟨k, prod, 0⟩ n = (prod + n) % 2 ^ (k + 1) := by
  rw [queue_inc_prod_n_eq ⟨k, prod, 0⟩ n hk]
  have h31 : prod < 2 ^ 31 :=
    lt_of_lt_of_le hp (Nat.pow_le_pow_right (by norm_num) hk)
  have hovf : Q_OVF prod = 0 := by
    rw [Q_OVF_eq, if_neg]
    rw [Nat.testBit_lt_two_pow h31]
    exact Bool.false_ne_true
  rw [hovf, Nat.zero_or, wrpIdx_eq_mod, Nat.mod_add_mod]

/-! ### Bit lemmas for the valid map -/

theorem GENMASK_testBit {h l : Nat} (i : Nat) (hle : l ≤ h) :
    (GENMASK h l).testBit i = decide (l ≤ i ∧ i ≤ h) := by
  rw [GENMASK, Nat.testBit_shiftLeft, Nat.one_shiftLeft, Nat.testBit_two_pow_sub_one]
  by_cases h1 : l ≤ i <;> by_cases h2 : i ≤ h <;>
    simp [h1, h2] <;> omega

theorem masked_eq_iff {x y mask : Nat} :
    (x &&& mask = y &&& mask) ↔ ∀ i, mask.testBit i = true → x.testBit i = y.testBit i := by
  constructor
  · intro h i hm
    have h2 := congrArg (fun z => z.testBit i) h
    simp only [Nat.testBit_and, hm, Bool.and_true] at h2
    exact h2
  · intro h
    apply Nat.eq_of_testBit_eq
    intro i
    simp only [Nat.testBit_and]
    by_cases hm : mask.testBit i
    · rw [h i hm]
    · simp only [Bool.not_eq_true] at hm
      rw [hm]
      simp

theorem testBit_top {k p : Nat} (h : p < 2 ^ (k + 1)) : p.testBit k = decide (2 ^ k ≤ p) := by
  have hpow : 2 ^ (k + 1) = 2 ^ k * 2 := pow_succ 2 k
  by_cases h2 : 2 ^ k ≤ p
  · have h3 : p = 2 ^ k + (p - 2 ^ k) := by omega
    rw [h3, Nat.testBit_two_pow_add_eq,
      Nat.testBit_lt_two_pow (show p - 2 ^ k < 2 ^ k by omega)]
    simp [h2]
  · rw [Nat.testBit_lt_two_pow (by omega)]
    simp [h2]

theorem Q_WRP_ne_iff {k prod : Nat} (h : prod < 2 ^ (k + 1)) :
    (Q_WRP k prod ≠ 0) ↔ 2 ^ k ≤ prod := by
  have hand : prod &&& 2 ^ k = if prod.testBit k then 2 ^ k else 0 := by
    apply Nat.eq_of_testBit_eq
    intro i
    simp only [Nat.testBit_and]
    by_cases hi : i = k
    · subst hi
      cases hb : prod.testBit i <;> simp [hb, Nat.testBit_two_pow_self, Nat.zero_testBit]
    · have hk : (k : Nat) ≠ i := fun hh => hi hh.symm
      rw [Nat.testBit_two_pow_of_ne hk]
      cases hb : prod.testBit k <;>
        simp [Nat.testBit_two_pow_of_ne hk, Nat.zero_testBit]
  rw [Q_WRP, Nat.one_shiftLeft, hand, testBit_top h]
  by_cases h2 : 2 ^ k ≤ prod <;>
    simp [h2, (Nat.pos_pow_of_pos k (show 0 < 2 by omega)).ne']

theorem xor_eq_or_of_and_false {a b : Bool} (h : (a && b) = false) : xor a b = (a || b) := by
  cases a <;> cases b <;> simp_all

theorem mod_tower (k x : Nat) : x % 2 ^ (k + 1) % 2 ^ k = x % 2 ^ k :=
  Nat.mod_mod_of_dvd x (pow_dvd_pow 2 (Nat.le_succ k))

/-- Setup facts for one chunk of the valid-map loop: the chunk is non-empty,
stays within one word, does not cross the end of the queue, and does not
overshoot the target distance. -/
theorem chunk_facts {k prod eprod : Nat} (hk6 : 6 ≤ k)
    (hp : prod < 2 ^ (k + 1)) (he : eprod < 2 ^ (k + 1)) (hne : prod ≠ eprod)
    (hd : (eprod + 2 ^ (k + 1) - prod) % 2 ^ (k + 1) ≤ 2 ^ k) :
    Q_IDX k prod % BITS_PER_LONG < chunkLimit k prod eprod ∧
    chunkLimit k prod eprod ≤ 64 ∧
    Q_IDX k prod + (chunkLimit k prod eprod - Q_IDX k prod % BITS_PER_LONG) ≤ 2 ^ k ∧
    chunkLimit k prod eprod - Q_IDX k prod % BITS_PER_LONG
      ≤ (eprod + 2 ^ (k + 1) - prod) % 2 ^ (k + 1) := by
  have hM2 : (0 : Nat) < 2 ^ (k + 1) := Nat.pos_pow_of_pos _ (by omega)
  have hM : (0 : Nat) < 2 ^ k := Nat.pos_pow_of_pos _ (by omega)
  set M := 2 ^ k with hMdef
  set M2 := 2 ^ (k + 1) with hM2def
  set D := (eprod + M2 - prod) % M2 with hDdef
  have hD2 : D < M2 := Nat.mod_lt _ hM2
  have hD0 : 0 < D := by
    rcases Nat.eq_zero_or_pos D with h0 | h0
    · exact absurd (dist_zero hM2 hp he h0) hne
    · exact h0
  have hpow : M2 = M * 2 := pow_succ 2 k
  have hcongr : (prod + D) % M2 = eprod := dist_congr hM2 hp he
  have hidx : (prod % M + D) % M = eprod % M := by
    have h1 : ((prod + D) % M2) % M = eprod % M := by rw [hcongr]
    rw [hM2def, hMdef, mod_tower] at h1
    rw [← h1, hMdef, Nat.mod_add_mod]
  have hpil : prod % M < M := Nat.mod_lt _ hM
  have heil : eprod % M < M := Nat.mod_lt _ hM
  have hdisj : eprod % M = prod % M + D ∨ eprod % M + M = prod % M + D := by
    rcases Nat.lt_or_ge (prod % M + D) M with h2 | h2
    · left
      rw [← hidx, Nat.mod_eq_of_lt h2]
    · right
      have h3 : (prod % M + D) % M = prod % M + D - M := by
        rw [Nat.mod_eq_sub_mod h2, Nat.mod_eq_of_lt (by omega)]
      rw [← hidx, h3]
      omega
  obtain ⟨m, hm⟩ : ∃ m, M = 64 * m := by
    refine ⟨2 ^ (k - 6), ?_⟩
    rw [hMdef, show (64 : Nat) = 2 ^ 6 from rfl, ← pow_add]
    congr 1
    omega
  rw [chunkLimit, Q_IDX_eq_mod, Q_IDX_eq_mod, ← hMdef]
  simp only [BIT_WORD, BITS_PER_LONG]
  by_cases hcond : prod % M / 64 = eprod % M / 64 ∧ prod % M % 64 < eprod % M % 64
  · rw [if_pos hcond]
    obtain ⟨hc1, hc2⟩ := hcond
    omega
  · rw [if_neg hcond]
    omega

/-- Splitting the covered range of slots at the first chunk boundary. -/
theorem covered_split {M D step pidx s : Nat} (hM : 0 < M) (hD : D ≤ M)
    (h1 : 0 < step) (h3 : pidx + step ≤ M) (h4 : step ≤ D) (hs : s < M) :
    ((s + M - pidx) % M < D ↔
      ((pidx ≤ s ∧ s < pidx + step) ∨ (s + M - (pidx + step) % M) % M < D - step))
    ∧ ¬((pidx ≤ s ∧ s < pidx + step) ∧ (s + M - (pidx + step) % M) % M < D - step) := by
  have hpil : pidx < M := by omega
  rcases Nat.lt_or_ge (pidx + step) M with hc | hc
  · rw [off_eval hpil hs, Nat.mod_eq_of_lt hc, off_eval hc hs]
    constructor
    · split_ifs <;> omega
    · split_ifs <;> omega
  · have h0 : (pidx + step) % M = 0 := by
      have hceq : pidx + step = M := by omega
      rw [hceq, Nat.mod_self]
    rw [off_eval hpil hs, h0, off_eval hM hs]
    constructor
    · split_ifs <;> omega
    · split_ifs <;> omega

/-- One revolution of `__arm_smmu_cmdq_poll_set_valid_map` in set mode flips
exactly the bits of the covered slots and leaves the upper bits of every
bitmap word untouched. -/
theorem valid_map_set_spec {k : Nat} (hk6 : 6 ≤ k) (hk31 : k + 1 ≤ 31) :
    ∀ fuel map prod eprod, prod < 2 ^ (k + 1) → eprod < 2 ^ (k + 1) →
      (eprod + 2 ^ (k + 1) - prod) % 2 ^ (k + 1) ≤ 2 ^ k →
      (eprod + 2 ^ (k + 1) - prod) % 2 ^ (k + 1) ≤ fuel →
      (∀ w b, b < 64 →
        ((valid_map_loop k true fuel map prod eprod).1 w).testBit b
          = Bool.xor ((map w).testBit b)
              (slotCovered k prod ((eprod + 2 ^ (k + 1) - prod) % 2 ^ (k + 1))
                (64 * w + b))) ∧
      (∀ w b, 64 ≤ b →
        ((valid_map_loop k true fuel map prod eprod).1 w).testBit b
          = (map w).testBit b) := by
  have hM : (0 : Nat) < 2 ^ k := Nat.pos_pow_of_pos _ (by omega)
  have hM2 : (0 : Nat) < 2 ^ (k + 1) := Nat.pos_pow_of_pos _ (by omega)
  intro fuel
  induction fuel with
  | zero =>
    intro map prod eprod hp he hdM hdf
    have h0 : (eprod + 2 ^ (k + 1) - prod) % 2 ^ (k + 1) = 0 := by omega
    refine ⟨fun w b hb => ?_, fun w b hb => ?_⟩
    · rw [h0]
      simp [valid_map_loop, slotCovered]
    · simp [valid_map_loop]
  | succ fuel ih =>
    intro map prod eprod hp he hdM hdf
    by_cases hpe : prod = eprod
    · subst hpe
      refine ⟨fun w b hb => ?_, fun w b hb => ?_⟩
      · rw [qdist_self hM2 hp]
        simp [valid_map_loop, slotCovered]
      · simp [valid_map_loop]
    · obtain ⟨hf1, hf2, hf3, hf4⟩ := chunk_facts hk6 hp he hpe hdM
      simp only [Q_IDX_eq_mod, BIT_WORD, BITS_PER_LONG] at hf1 hf2 hf3 hf4
      have hstep1 : 0 < chunkLimit k prod eprod - prod % 2 ^ k % 64 := by omega
      have h3' : prod % 2 ^ k + (chunkLimit k prod eprod - prod % 2 ^ k % 64) ≤ 2 ^ k := by
        omega
      have hunf0 : valid_map_loop k true (fuel + 1) map prod eprod
          = valid_map_loop k true fuel
              (fun w => if w = prod % 2 ^ k / 64 then
                  map (prod % 2 ^ k / 64) ^^^
                    GENMASK (chunkLimit k prod eprod - 1) (prod % 2 ^ k % 64)
                else map w)
              (queue_inc_prod_n ⟨k, prod, 0⟩
                (chunkLimit k prod eprod - prod % 2 ^ k % 64)) eprod := by
        simp [valid_map_loop, hpe, Q_IDX_eq_mod, BIT_WORD, BITS_PER_LONG]
      rw [queue_inc_small _ hk31 hp] at hunf0
      have hD' := dist_step hM2 hp he hf4
      have hp' : (prod + (chunkLimit k prod eprod - prod % 2 ^ k % 64))
          % 2 ^ (k + 1) < 2 ^ (k + 1) := Nat.mod_lt _ hM2
      obtain ⟨ih1, ih2⟩ := ih
        (fun w => if w = prod % 2 ^ k / 64 then
            map (prod % 2 ^ k / 64) ^^^
              GENMASK (chunkLimit k prod eprod - 1) (prod % 2 ^ k % 64)
          else map w)
        ((prod + (chunkLimit k prod eprod - prod % 2 ^ k % 64)) % 2 ^ (k + 1))
        eprod hp' he (by rw [hD']; omega) (by rw [hD']; omega)
      refine ⟨fun w b hb => ?_, fun w b hb => ?_⟩
      · rw [hunf0, ih1 w b hb, hD']
        have hmap : ((fun w => if w = prod % 2 ^ k / 64 then
              map (prod % 2 ^ k / 64) ^^^
                GENMASK (chunkLimit k prod eprod - 1) (prod % 2 ^ k % 64)
            else map w) w).testBit b
            = Bool.xor ((map w).testBit b)
                (decide (prod % 2 ^ k ≤ 64 * w + b ∧
                  64 * w + b < prod % 2 ^ k +
                    (chunkLimit k prod eprod - prod % 2 ^ k % 64))) := by
          by_cases hw : w = prod % 2 ^ k / 64
          · have hg := @GENMASK_testBit (chunkLimit k prod eprod - 1)
              (prod % 2 ^ k % 64) b (by omega)
            simp only [hw, eq_self_iff_true, if_true, Nat.testBit_xor, hg]
            congr 1
            rw [decide_eq_decide]
            omega
          · simp only [if_neg hw]
            rw [decide_eq_false (by omega :
              ¬(prod % 2 ^ k ≤ 64 * w + b ∧
                64 * w + b < prod % 2 ^ k +
                  (chunkLimit k prod eprod - prod % 2 ^ k % 64))), Bool.xor_false]
        rw [hmap, Bool.xor_assoc]
        congr 1
        simp only [slotCovered]
        have hpidx' : (prod + (chunkLimit k prod eprod - prod % 2 ^ k % 64))
              % 2 ^ (k + 1) % 2 ^ k
            = (prod % 2 ^ k + (chunkLimit k prod eprod - prod % 2 ^ k % 64)) % 2 ^ k := by
          rw [mod_tower]
          exact (Nat.mod_add_mod _ _ _).symm
        rw [hpidx']
        by_cases hsM : 64 * w + b < 2 ^ k
        · obtain ⟨hiff, hdisj⟩ := covered_split hM hdM hstep1 h3' hf4 hsM
          rw [decide_eq_true hsM, Bool.true_and, Bool.true_and]
          by_cases hA : prod % 2 ^ k ≤ 64 * w + b ∧
              64 * w + b < prod % 2 ^ k + (chunkLimit k prod eprod - prod % 2 ^ k % 64)
          · by_cases hB : (64 * w + b + 2 ^ k -
                (prod % 2 ^ k + (chunkLimit k prod eprod - prod % 2 ^ k % 64)) % 2 ^ k)
                  % 2 ^ k
                < (eprod + 2 ^ (k + 1) - prod) % 2 ^ (k + 1) -
                  (chunkLimit k prod eprod - prod % 2 ^ k % 64)
            · exact absurd ⟨hA, hB⟩ hdisj
            · rw [decide_eq_true hA, decide_eq_false hB,
                decide_eq_true (hiff.mpr (Or.inl hA))]
              rfl
          · by_cases hB : (64 * w + b + 2 ^ k -
                (prod % 2 ^ k + (chunkLimit k prod eprod - prod % 2 ^ k % 64)) % 2 ^ k)
                  % 2 ^ k
                < (eprod + 2 ^ (k + 1) - prod) % 2 ^ (k + 1) -
                  (chunkLimit k prod eprod - prod % 2 ^ k % 64)
            · rw [decide_eq_false hA, decide_eq_true hB,
                decide_eq_true (hiff.mpr (Or.inr hB))]
              rfl
            · rw [decide_eq_false hA, decide_eq_false hB,
                decide_eq_false (fun hBig => (hiff.mp hBig).elim hA hB)]
              rfl
        · rw [decide_eq_false hsM, Bool.false_and, Bool.false_and, Bool.xor_false]
          exact decide_eq_false (by omega)
      · rw [hunf0, ih2 w b hb]
        by_cases hw : w = prod % 2 ^ k / 64
        · have hg := @GENMASK_testBit (chunkLimit k prod eprod - 1)
            (prod % 2 ^ k % 64) b (by omega)
          have hgf : (GENMASK (chunkLimit k prod eprod - 1)
              (prod % 2 ^ k % 64)).testBit b = false := by
            rw [hg]
            exact decide_eq_false (by omega)
          simp only [hw, eq_self_iff_true, if_true, Nat.testBit_xor, hgf, Bool.xor_false]
        · simp only [if_neg hw]

/-- One revolution of `__arm_smmu_cmdq_poll_set_valid_map` in poll mode
completes without waiting when every covered slot's valid bit already
disagrees with the wrap bit of its producer position. -/
theorem valid_map_poll_spec {k : Nat} (hk6 : 6 ≤ k) (hk31 : k + 1 ≤ 31) :
    ∀ fuel map prod eprod, prod < 2 ^ (k + 1) → eprod < 2 ^ (k + 1) →
      (eprod + 2 ^ (k + 1) - prod) % 2 ^ (k + 1) ≤ 2 ^ k →
      (eprod + 2 ^ (k + 1) - prod) % 2 ^ (k + 1) ≤ fuel →
      (∀ t, t < (eprod + 2 ^ (k + 1) - prod) % 2 ^ (k + 1) →
        validBit map (slotIdx k prod t) = !(wrapBit k prod t)) →
      (valid_map_loop k false fuel map prod eprod).2 = true := by
  have hM : (0 : Nat) < 2 ^ k := Nat.pos_pow_of_pos _ (by omega)
  have hM2 : (0 : Nat) < 2 ^ (k + 1) := Nat.pos_pow_of_pos _ (by omega)
  intro fuel
  induction fuel with
  | zero =>
    intro map prod eprod hp he hdM hdf _
    have h0 : (eprod + 2 ^ (k + 1) - prod) % 2 ^ (k + 1) = 0 := by omega
    have hpe := dist_zero hM2 hp he h0
    simp [valid_map_loop, hpe]
  | succ fuel ih =>
    intro map prod eprod hp he hdM hdf H
    by_cases hpe : prod = eprod
    · simp [valid_map_loop, hpe]
    · obtain ⟨hf1, hf2, hf3, hf4⟩ := chunk_facts hk6 hp he hpe hdM
      simp only [Q_IDX_eq_mod, BIT_WORD, BITS_PER_LONG] at hf1 hf2 hf3 hf4
      have hstep1 : 0 < chunkLimit k prod eprod - prod % 2 ^ k % 64 := by omega
      have h2k : 2 ^ (k + 1) = 2 ^ k * 2 := pow_succ 2 k
      have hglt : prod % 2 ^ k < 2 ^ k := Nat.mod_lt _ hM
      have hsplit : prod % 2 ^ k = prod ∨ prod % 2 ^ k + 2 ^ k = prod := by
        rcases Nat.lt_or_ge prod (2 ^ k) with hlt | hge
        · left
          exact Nat.mod_eq_of_lt hlt
        · right
          have hsub : prod % 2 ^ k = prod - 2 ^ k := by
            rw [Nat.mod_eq_sub_mod hge, Nat.mod_eq_of_lt (by omega)]
          omega
      have hunf0 : (valid_map_loop k false (fuel + 1) map prod eprod).2
          = ((map (prod % 2 ^ k / 64) &&&
                GENMASK (chunkLimit k prod eprod - 1) (prod % 2 ^ k % 64)
              == ((ULONG_MAX + (if Q_WRP k prod ≠ 0 then 1 else 0))
                  % 18446744073709551616) &&&
                GENMASK (chunkLimit k prod eprod - 1) (prod % 2 ^ k % 64)) &&
            (valid_map_loop k false fuel map
              (queue_inc_prod_n ⟨k, prod, 0⟩
                (chunkLimit k prod eprod - prod % 2 ^ k % 64)) eprod).2) := by
        simp [valid_map_loop, hpe, Q_IDX_eq_mod, BIT_WORD, BITS_PER_LONG]
      rw [queue_inc_small _ hk31 hp] at hunf0
      have hD' := dist_step hM2 hp he hf4
      have hp' : (prod + (chunkLimit k prod eprod - prod % 2 ^ k % 64))
          % 2 ^ (k + 1) < 2 ^ (k + 1) := Nat.mod_lt _ hM2
      rw [hunf0, Bool.and_eq_true]
      constructor
      · rw [beq_iff_eq]
        apply masked_eq_iff.mpr
        intro i hmi
        have hg := @GENMASK_testBit (chunkLimit k prod eprod - 1)
          (prod % 2 ^ k % 64) i (by omega)
        rw [hg] at hmi
        obtain ⟨hiP, hiL⟩ : prod % 2 ^ k % 64 ≤ i ∧ i ≤ chunkLimit k prod eprod - 1 :=
          of_decide_eq_true hmi
        have hH := H (i - prod % 2 ^ k % 64) (by omega)
        simp only [slotIdx, wrapBit, validBit] at hH
        have hslot : (prod + (i - prod % 2 ^ k % 64)) % 2 ^ (k + 1) % 2 ^ k
            = prod % 2 ^ k + (i - prod % 2 ^ k % 64) := by
          rw [mod_tower, ← Nat.mod_add_mod, Nat.mod_eq_of_lt (by omega)]
        have hwrap3 : decide (2 ^ k ≤ (prod + (i - prod % 2 ^ k % 64)) % 2 ^ (k + 1))
            = decide (2 ^ k ≤ prod) := by
          rw [decide_eq_decide, Nat.mod_eq_of_lt (by omega :
            prod + (i - prod % 2 ^ k % 64) < 2 ^ (k + 1))]
          rcases hsplit with hs | hs <;> omega
        rw [hslot, hwrap3] at hH
        have hdiv : (prod % 2 ^ k + (i - prod % 2 ^ k % 64)) / 64 = prod % 2 ^ k / 64 := by
          omega
        have hmod : (prod % 2 ^ k + (i - prod % 2 ^ k % 64)) % 64 = i := by
          omega
        rw [hdiv, hmod] at hH
        by_cases hQ : Q_WRP k prod ≠ 0
        · rw [if_pos hQ]
          have hwrapT : 2 ^ k ≤ prod := (Q_WRP_ne_iff hp).mp hQ
          have hbig : (ULONG_MAX + 1) % 18446744073709551616 = 0 := by
            norm_num [ULONG_MAX]
          rw [hbig, Nat.zero_testBit, hH]
          simp [hwrapT]
        · rw [if_neg hQ]
          have hwrapF : ¬(2 ^ k ≤ prod) := fun hc => hQ ((Q_WRP_ne_iff hp).mpr hc)
          have hbig : (ULONG_MAX + 0) % 18446744073709551616 = ULONG_MAX := by
            norm_num [ULONG_MAX]
          have hU : (ULONG_MAX).testBit i = true := by
            have hUeq : ULONG_MAX = 2 ^ 64 - 1 := by norm_num [ULONG_MAX]
            rw [hUeq, Nat.testBit_two_pow_sub_one]
            exact decide_eq_true (by omega)
          rw [hbig, hH, hU]
          simp [hwrapF]
      · refine ih map ((prod + (chunkLimit k prod eprod - prod % 2 ^ k % 64)) % 2 ^ (k + 1))
          eprod hp' he (by rw [hD']; omega) (by rw [hD']; omega) ?_
        intro t ht
        rw [hD'] at ht
        have hsi : slotIdx k ((prod + (chunkLimit k prod eprod - prod % 2 ^ k % 64))
              % 2 ^ (k + 1)) t
            = slotIdx k prod ((chunkLimit k prod eprod - prod % 2 ^ k % 64) + t) := by
          simp only [slotIdx, Nat.mod_add_mod, Nat.add_assoc]
        have hwb : wrapBit k ((prod + (chunkLimit k prod eprod - prod % 2 ^ k % 64))
              % 2 ^ (k + 1)) t
            = wrapBit k prod ((chunkLimit k prod eprod - prod % 2 ^ k % 64) + t) := by
          simp only [wrapBit, Nat.mod_add_mod, Nat.add_assoc]
        rw [hsi, hwb]
        exact H _ (by omega)

theorem slot_off {k p t : Nat} (ht : t < 2 ^ k) :
    (slotIdx k p t + 2 ^ k - p % 2 ^ k) % 2 ^ k = t := by
  have hM : (0 : Nat) < 2 ^ k := Nat.pos_pow_of_pos _ (by omega)
  have hpl : p % 2 ^ k < 2 ^ k := Nat.mod_lt _ hM
  have hs : slotIdx k p t = (p % 2 ^ k + t) % 2 ^ k := by
    simp only [slotIdx]
    rw [mod_tower, ← Nat.mod_add_mod]
  rcases Nat.lt_or_ge (p % 2 ^ k + t) (2 ^ k) with hc | hc
  · rw [hs, Nat.mod_eq_of_lt hc,
      show p % 2 ^ k + t + 2 ^ k - p % 2 ^ k = t + 2 ^ k from by omega,
      Nat.add_mod_right, Nat.mod_eq_of_lt ht]
  · have hv : (p % 2 ^ k + t) % 2 ^ k = p % 2 ^ k + t - 2 ^ k := by
      rw [Nat.mod_eq_sub_mod hc, Nat.mod_eq_of_lt (by omega)]
    rw [hs, hv,
      show p % 2 ^ k + t - 2 ^ k + 2 ^ k - p % 2 ^ k = t from by omega,
      Nat.mod_eq_of_lt ht]

theorem covered_shift {k p d s : Nat} :
    slotCovered k ((p + 2 ^ k) % 2 ^ (k + 1)) d s = slotCovered k p d s := by
  simp only [slotCovered]
  have h : (p + 2 ^ k) % 2 ^ (k + 1) % 2 ^ k = p % 2 ^ k := by
    rw [mod_tower, Nat.add_mod_right]
  rw [h]

theorem dist_shift {k sprod eprod : Nat} (hp : sprod < 2 ^ (k + 1))
    (he : eprod < 2 ^ (k + 1)) :
    ((eprod + 2 ^ k) % 2 ^ (k + 1) + 2 ^ (k + 1) - (sprod + 2 ^ k) % 2 ^ (k + 1))
        % 2 ^ (k + 1)
      = (eprod + 2 ^ (k + 1) - sprod) % 2 ^ (k + 1) := by
  have hM2 : (0 : Nat) < 2 ^ (k + 1) := Nat.pos_pow_of_pos _ (by omega)
  apply dist_unique hM2 (Nat.mod_lt _ hM2) (Nat.mod_lt _ hM2) (Nat.mod_lt _ hM2)
  have hsw : ((sprod + 2 ^ k) % 2 ^ (k + 1) +
        (eprod + 2 ^ (k + 1) - sprod) % 2 ^ (k + 1)) % 2 ^ (k + 1)
      = ((sprod + (eprod + 2 ^ (k + 1) - sprod) % 2 ^ (k + 1)) % 2 ^ (k + 1) + 2 ^ k)
        % 2 ^ (k + 1) := by
    rw [Nat.mod_add_mod, Nat.mod_add_mod]
    congr 1
    omega
  rw [hsw, dist_congr hM2 hp he]

/-- C2: in the command-queue valid bitmap a slot's valid bit is the inverse of
the wrap bit under which it was last marked.  A zero-initialised bitmap holds
no valid slot, so a wrap-0 poll of a fresh non-empty range does not complete
at once; `arm_smmu_cmdq_set_valid_map` over a range `[sprod, eprod)` spanning
at most one revolution flips exactly the bits of the covered slots (all other
bits, including the unused high bits of each word, are untouched); if the
range previously held the pattern of the prior wrap, a set followed by an
`arm_smmu_cmdq_poll_valid_map` of the same range completes without waiting;
and marking the same slots again one wrap later restores the bitmap, making
them invalid again. -/
theorem cmdq_valid_map_wrap {k fuel sprod eprod : Nat} (map : Nat → Nat)
    (hk6 : 6 ≤ k) (hk31 : k + 1 ≤ 31)
    (hsp : sprod < 2 ^ (k + 1)) (hep : eprod < 2 ^ (k + 1))
    (hdM : (eprod + 2 ^ (k + 1) - sprod) % 2 ^ (k + 1) ≤ 2 ^ k)
    (hdf : (eprod + 2 ^ (k + 1) - sprod) % 2 ^ (k + 1) ≤ fuel) :
    (∀ idx, validBit (fun _ => 0) idx = false) ∧
    (sprod < 2 ^ k → sprod ≠ eprod → 0 < fuel →
      arm_smmu_cmdq_poll_valid_map k fuel (fun _ => 0) sprod eprod = false) ∧
    (∀ t, t < (eprod + 2 ^ (k + 1) - sprod) % 2 ^ (k + 1) →
      validBit (arm_smmu_cmdq_set_valid_map k fuel map sprod eprod) (slotIdx k sprod t)
        = !(validBit map (slotIdx k sprod t))) ∧
    (∀ s, s < 2 ^ k →
      slotCovered k sprod ((eprod + 2 ^ (k + 1) - sprod) % 2 ^ (k + 1)) s = false →
      validBit (arm_smmu_cmdq_set_valid_map k fuel map sprod eprod) s
        = validBit map s) ∧
    (∀ w b, 64 ≤ b →
      (arm_smmu_cmdq_set_valid_map k fuel map sprod eprod w).testBit b
        = (map w).testBit b) ∧
    ((∀ t, t < (eprod + 2 ^ (k + 1) - sprod) % 2 ^ (k + 1) →
        validBit map (slotIdx k sprod t) = wrapBit k sprod t) →
      arm_smmu_cmdq_poll_valid_map k fuel
        (arm_smmu_cmdq_set_valid_map k fuel map sprod eprod) sprod eprod = true) ∧
    (∀ w, arm_smmu_cmdq_set_valid_map k fuel
        (arm_smmu_cmdq_set_valid_map k fuel map sprod eprod)
        ((sprod + 2 ^ k) % 2 ^ (k + 1)) ((eprod + 2 ^ k) % 2 ^ (k + 1)) w
      = map w) := by
  have hM : (0 : Nat) < 2 ^ k := Nat.pos_pow_of_pos _ (by omega)
  have hM2 : (0 : Nat) < 2 ^ (k + 1) := Nat.pos_pow_of_pos _ (by omega)
  obtain ⟨hs1, hs2⟩ := valid_map_set_spec hk6 hk31 fuel map sprod eprod hsp hep hdM hdf
  have hflip : ∀ t, t < (eprod + 2 ^ (k + 1) - sprod) % 2 ^ (k + 1) →
      validBit (arm_smmu_cmdq_set_valid_map k fuel map sprod eprod) (slotIdx k sprod t)
        = !(validBit map (slotIdx k sprod t)) := by
    intro t ht
    have htM : t < 2 ^ k := lt_of_lt_of_le ht hdM
    have hsl : slotIdx k sprod t < 2 ^ k := Nat.mod_lt _ hM
    have h1 := hs1 (slotIdx k sprod t / 64) (slotIdx k sprod t % 64)
      (Nat.mod_lt _ (by omega))
    rw [Nat.div_add_mod] at h1
    have hca : slotCovered k sprod ((eprod + 2 ^ (k + 1) - sprod) % 2 ^ (k + 1))
        (slotIdx k sprod t) = true := by
      simp only [slotCovered]
      rw [slot_off htM, decide_eq_true hsl, decide_eq_true ht]
      rfl
    rw [hca, Bool.xor_true] at h1
    simp only [validBit, arm_smmu_cmdq_set_valid_map]
    exact h1
  refine ⟨?_, ?_, hflip, ?_, ?_, ?_, ?_⟩
  · intro idx
    simp [validBit]
  · intro hw0 hne hf0
    obtain ⟨f', rfl⟩ : ∃ f', fuel = f' + 1 := ⟨fuel - 1, by omega⟩
    obtain ⟨hf1, hf2, hf3, hf4⟩ := chunk_facts hk6 hsp hep hne hdM
    simp only [Q_IDX_eq_mod, BIT_WORD, BITS_PER_LONG] at hf1 hf2 hf3 hf4
    have hQ : ¬(Q_WRP k sprod ≠ 0) := fun hc =>
      absurd ((Q_WRP_ne_iff hsp).mp hc) (by omega)
    have hvalid_ne : ((ULONG_MAX + (if Q_WRP k sprod ≠ 0 then 1 else 0))
          % 18446744073709551616) &&&
        GENMASK (chunkLimit k sprod eprod - 1) (sprod % 2 ^ k % 64) ≠ 0 := by
      intro hzero
      have hb := congrArg (fun z => z.testBit (sprod % 2 ^ k % 64)) hzero
      simp only [Nat.testBit_and, Nat.zero_testBit] at hb
      rw [if_neg hQ] at hb
      have hbig : (ULONG_MAX + 0) % 18446744073709551616 = ULONG_MAX := by
        norm_num [ULONG_MAX]
      rw [hbig] at hb
      have hU : (ULONG_MAX).testBit (sprod % 2 ^ k % 64) = true := by
        have hUeq : ULONG_MAX = 2 ^ 64 - 1 := by norm_num [ULONG_MAX]
        rw [hUeq, Nat.testBit_two_pow_sub_one]
        exact decide_eq_true (by omega)
      have hg := @GENMASK_testBit (chunkLimit k sprod eprod - 1)
        (sprod % 2 ^ k % 64) (sprod % 2 ^ k % 64) (by omega)
      rw [hU, hg, decide_eq_true (by omega :
        sprod % 2 ^ k % 64 ≤ sprod % 2 ^ k % 64 ∧
          sprod % 2 ^ k % 64 ≤ chunkLimit k sprod eprod - 1)] at hb
      simp at hb
    simp only [arm_smmu_cmdq_poll_valid_map]
    have hunf0 : (valid_map_loop k false (f' + 1) (fun _ => 0) sprod eprod).2
        = ((0 == ((ULONG_MAX + (if Q_WRP k sprod ≠ 0 then 1 else 0))
                % 18446744073709551616) &&&
              GENMASK (chunkLimit k sprod eprod - 1) (sprod % 2 ^ k % 64)) &&
          (valid_map_loop k false f' (fun _ => 0)
            (queue_inc_prod_n ⟨k, sprod, 0⟩
              (chunkLimit k sprod eprod - sprod % 2 ^ k % 64)) eprod).2) := by
      simp [valid_map_loop, hne, Q_IDX_eq_mod, BIT_WORD, BITS_PER_LONG]
    rw [hunf0,
      show (0 == ((ULONG_MAX + (if Q_WRP k sprod ≠ 0 then 1 else 0))
            % 18446744073709551616) &&&
          GENMASK (chunkLimit k sprod eprod - 1) (sprod % 2 ^ k % 64)) = false
        from beq_eq_false_iff_ne.mpr (fun h => hvalid_ne h.symm),
      Bool.false_and]
  · intro s hsM hcov
    have h1 := hs1 (s / 64) (s % 64) (Nat.mod_lt _ (by omega))
    rw [Nat.div_add_mod] at h1
    simp only [validBit, arm_smmu_cmdq_set_valid_map]
    rw [h1, hcov, Bool.xor_false]
  · intro w b hb
    simp only [arm_smmu_cmdq_set_valid_map]
    exact hs2 w b hb
  · intro H0
    simp only [arm_smmu_cmdq_poll_valid_map, arm_smmu_cmdq_set_valid_map]
    apply valid_map_poll_spec hk6 hk31 fuel _ sprod eprod hsp hep hdM hdf
    intro t ht
    have h2 := hflip t ht
    simp only [arm_smmu_cmdq_set_valid_map] at h2
    rw [h2, H0 t ht]
  · intro w
    have hds := dist_shift hsp hep
    obtain ⟨hs1', hs2'⟩ := valid_map_set_spec hk6 hk31 fuel
      (arm_smmu_cmdq_set_valid_map k fuel map sprod eprod)
      ((sprod + 2 ^ k) % 2 ^ (k + 1)) ((eprod + 2 ^ k) % 2 ^ (k + 1))
      (Nat.mod_lt _ hM2) (Nat.mod_lt _ hM2)
      (by rw [hds]; exact hdM) (by rw [hds]; exact hdf)
    apply Nat.eq_of_testBit_eq
    intro b
    rcases Nat.lt_or_ge b 64 with hb | hb
    · have h1 := hs1' w b hb
      rw [hds] at h1
      simp only [arm_smmu_cmdq_set_valid_map] at h1 ⊢
      rw [h1, covered_shift, hs1 w b hb, Bool.xor_assoc, Bool.xor_self, Bool.xor_false]
    · have h1 := hs2' w b hb
      simp only [arm_smmu_cmdq_set_valid_map] at h1 ⊢
      rw [h1]
      exact hs2 w b hb

theorem cmdq_valid_map_wrap_witness :
    arm_smmu_cmdq_poll_valid_map 6 2 (fun _ => 0) 0 2 = false ∧
    arm_smmu_cmdq_poll_valid_map 6 2
      (arm_smmu_cmdq_set_valid_map 6 2 (fun _ => 0) 0 2) 0 2 = true := by
  obtain ⟨h1, h2, h3, h4, h5, h6, h7⟩ := @cmdq_valid_map_wrap 6 2 0 2 (fun _ => 0)
    (by decide) (by decide) (by decide) (by decide) (by decide) (by decide)
  refine ⟨h2 (by decide) (by decide) (by decide), h6 ?_⟩
  intro t ht
  have ht2 : t < 2 := by omega
  interval_cases t <;> decide

/-! ### C1: concurrent `arm_smmu_cmdq_issue_cmdlist`

Interleaving model of the producer-side protocol of
`arm_smmu_cmdq_issue_cmdlist` (source lines 1386-1504).  Each of `N` callers
submits `n i` slots (its command list plus optional sync marker).  The shared
state carries the fields of `cmdq->q.llq.prod` split into the 31-bit producer
value (`prodVal`) and the `CMDQ_PROD_OWNED_FLAG` bit (`prodFlag`, bit 31,
disjoint from the producer bits because `max_n_shift + 1 ≤ 31`), plus
`cmdq->owner_prod` and the hardware producer register.  Ghost counters record
how many slots the respective value is ahead of the initial producer.

Transitions follow the source:
* `reserve` — the successful `cmpxchg` iteration: the caller becomes owner
  iff the owned flag was clear; `head.prod` is
  `queue_inc_prod_n(&llq, n + sync)` with the owned flag set.  A non-owner
  caller then only writes its entries and valid bits, which never touch the
  producer fields, so it is collapsed to `done`.
* `take` — the owner passes `atomic_cond_read(owner_prod == llq.prod)` and
  performs the `atomic_fetch_andnot(CMDQ_PROD_OWNED_FLAG)` of step 4b,
  snapshotting the gathered producer value.  The two are modelled as one
  step: the guard is stable, as `owner_prod` is next written only by this
  owner's own step 4e.
* `publish` — step 4d, `writel_relaxed(prod, cmdq->q.prod_reg)` (step 4c's
  poll of the valid map only orders entry visibility and never changes the
  producer fields).
* `release` — step 4e, `atomic_set_release(&cmdq->owner_prod, prod)`. -/

inductive ThSt
  | start
  | waitPrev (my gMy : Nat)
  | cleared (my gMy snap gSn : Nat)
  | wroteHw (my gMy snap gSn : Nat)
  | done
deriving DecidableEq

structure CSt (N : Nat) where
  prodVal : Nat
  prodFlag : Bool
  ownerProd : Nat
  hwProd : Nat
  th : Fin N → ThSt
  gProd : Nat
  gCov : Nat
  gOwn : Nat
  gHw : Nat

def cmdqInit (N P0 : Nat) : CSt N :=
  ⟨P0, false, P0, P0, fun _ => ThSt.start, 0, 0, 0, 0⟩

inductive cmdqStep (k : Nat) {N : Nat} (n : Fin N → Nat) : CSt N → CSt N → Prop
  | reserve (s : CSt N) (i : Fin N) (h : s.th i = ThSt.start) :
      cmdqStep k n s
        { s with
          prodVal := queue_inc_prod_n ⟨k, s.prodVal, 0⟩ (n i)
          prodFlag := true
          th := fun j => if j = i then
              (if s.prodFlag then ThSt.done else ThSt.waitPrev s.prodVal s.gProd)
            else s.th j
          gProd := s.gProd + n i }
  | take (s : CSt N) (i : Fin N) (my gMy : Nat)
      (h : s.th i = ThSt.waitPrev my gMy) (hg : s.ownerProd = my) :
      cmdqStep k n s
        { s with
          prodFlag := false
          th := fun j => if j = i then ThSt.cleared my gMy s.prodVal s.gProd
            else s.th j
          gCov := s.gProd }
  | publish (s : CSt N) (i : Fin N) (my gMy snap gSn : Nat)
      (h : s.th i = ThSt.cleared my gMy snap gSn) :
      cmdqStep k n s
        { s with
          hwProd := snap
          th := fun j => if j = i then ThSt.wroteHw my gMy snap gSn else s.th j
          gHw := gSn }
  | release (s : CSt N) (i : Fin N) (my gMy snap gSn : Nat)
      (h : s.th i = ThSt.wroteHw my gMy snap gSn) :
      cmdqStep k n s
        { s with
          ownerProd := snap
          th := fun j => if j = i then ThSt.done else s.th j
          gOwn := gSn }

/-- The owner hand-over pipeline: at most one not-yet-signalled owner waiting
for its predecessor, and at most one owner between clearing the owned flag
and publishing its `owner_prod`. -/
def cmdqPipe {N : Nat} (k P0 : Nat) (s : CSt N) : Prop :=
  ((∀ j, s.th j = ThSt.start ∨ s.th j = ThSt.done) ∧
    s.gCov = s.gProd ∧ s.gOwn = s.gProd ∧ s.gHw = s.gProd) ∨
  (∃ i w, s.th i = ThSt.waitPrev ((P0 + w) % 2 ^ (k + 1)) w ∧
    (∀ j, j ≠ i → s.th j = ThSt.start ∨ s.th j = ThSt.done) ∧
    s.gCov = w ∧ s.gOwn = w ∧ s.gHw = w ∧ w < s.gProd) ∨
  (∃ i a b, s.th i = ThSt.cleared ((P0 + a) % 2 ^ (k + 1)) a
      ((P0 + b) % 2 ^ (k + 1)) b ∧
    (∀ j, j ≠ i → s.th j = ThSt.start ∨ s.th j = ThSt.done) ∧
    s.gOwn = a ∧ s.gHw = a ∧ s.gCov = b ∧ a < b ∧ b = s.gProd) ∨
  (∃ i a b, s.th i = ThSt.wroteHw ((P0 + a) % 2 ^ (k + 1)) a
      ((P0 + b) % 2 ^ (k + 1)) b ∧
    (∀ j, j ≠ i → s.th j = ThSt.start ∨ s.th j = ThSt.done) ∧
    s.gOwn = a ∧ s.gHw = b ∧ s.gCov = b ∧ a < b ∧ b = s.gProd) ∨
  (∃ i j a b, i ≠ j ∧ s.th i = ThSt.cleared ((P0 + a) % 2 ^ (k + 1)) a
      ((P0 + b) % 2 ^ (k + 1)) b ∧
    s.th j = ThSt.waitPrev ((P0 + b) % 2 ^ (k + 1)) b ∧
    (∀ l, l ≠ i → l ≠ j → s.th l = ThSt.start ∨ s.th l = ThSt.done) ∧
    s.gOwn = a ∧ s.gHw = a ∧ s.gCov = b ∧ a < b ∧ b < s.gProd) ∨
  (∃ i j a b, i ≠ j ∧ s.th i = ThSt.wroteHw ((P0 + a) % 2 ^ (k + 1)) a
      ((P0 + b) % 2 ^ (k + 1)) b ∧
    s.th j = ThSt.waitPrev ((P0 + b) % 2 ^ (k + 1)) b ∧
    (∀ l, l ≠ i → l ≠ j → s.th l = ThSt.start ∨ s.th l = ThSt.done) ∧
    s.gOwn = a ∧ s.gHw = b ∧ s.gCov = b ∧ a < b ∧ b < s.gProd)

/-- Inductive invariant of the model. -/
def cmdqInv {N : Nat} (k P0 : Nat) (n : Fin N → Nat) (s : CSt N) : Prop :=
  s.prodVal = (P0 + s.gProd) % 2 ^ (k + 1) ∧
  s.ownerProd = (P0 + s.gOwn) % 2 ^ (k + 1) ∧
  s.hwProd = (P0 + s.gHw) % 2 ^ (k + 1) ∧
  s.gProd = (Finset.univ.filter fun j => s.th j ≠ ThSt.start).sum n ∧
  s.prodFlag = decide (s.gCov < s.gProd) ∧
  s.gCov ≤ s.gProd ∧
  s.gOwn ≤ s.gProd ∧
  s.gHw ≤ s.gProd ∧
  cmdqPipe k P0 s

theorem mod_inj_small {M2 P0 a b : Nat} (ha : a < M2) (hb : b < M2)
    (h : (P0 + a) % M2 = (P0 + b) % M2) : a = b := by
  have h2 : a % M2 = b % M2 := Nat.ModEq.add_left_cancel' P0 h
  rw [Nat.mod_eq_of_lt ha, Nat.mod_eq_of_lt hb] at h2
  exact h2

theorem filter_update_count {N : Nat} (th : Fin N → ThSt) (i : Fin N) (v : ThSt)
    (n : Fin N → Nat) (hv : v ≠ ThSt.start) (hold : th i = ThSt.start) :
    (Finset.univ.filter fun j => (if j = i then v else th j) ≠ ThSt.start).sum n
      = (Finset.univ.filter fun j => th j ≠ ThSt.start).sum n + n i := by
  have hset : (Finset.univ.filter fun j => (if j = i then v else th j) ≠ ThSt.start)
      = insert i (Finset.univ.filter fun j => th j ≠ ThSt.start) := by
    ext j
    by_cases hj : j = i
    · subst hj
      simp [hv]
    · simp [hj]
  rw [hset, Finset.sum_insert (by simp [hold])]
  exact Nat.add_comm _ _

theorem filter_update_keep {N : Nat} (th : Fin N → ThSt) (i : Fin N) (v : ThSt)
    (hv : v ≠ ThSt.start) (hold : th i ≠ ThSt.start) :
    (Finset.univ.filter fun j => (if j = i then v else th j) ≠ ThSt.start)
      = (Finset.univ.filter fun j => th j ≠ ThSt.start) := by
  ext j
  by_cases hj : j = i
  · subst hj
    simp [hv, hold]
  · simp [hj]

theorem thst_not_start_done {t : ThSt} (h1 : t = ThSt.start ∨ t = ThSt.done) :
    (∀ my gMy, t ≠ ThSt.waitPrev my gMy) ∧
    (∀ my gMy snap gSn, t ≠ ThSt.cleared my gMy snap gSn) ∧
    (∀ my gMy snap gSn, t ≠ ThSt.wroteHw my gMy snap gSn) := by
  rcases h1 with h1 | h1 <;> subst h1 <;>
    exact ⟨fun _ _ => by simp, fun _ _ _ _ => by simp, fun _ _ _ _ => by simp⟩

theorem cmdqInv_reserve {N k P0 : Nat} {n : Fin N → Nat} (hk : k + 1 ≤ 31)
    (hn : ∀ i, 0 < n i)
    {s : CSt N} (i : Fin N) (h : s.th i = ThSt.start) (hinv : cmdqInv k P0 n s) :
    cmdqInv k P0 n
      { s with
        prodVal := queue_inc_prod_n ⟨k, s.prodVal, 0⟩ (n i)
        prodFlag := true
        th := fun j => if j = i then
            (if s.prodFlag then ThSt.done else ThSt.waitPrev s.prodVal s.gProd)
          else s.th j
        gProd := s.gProd + n i } := by
  obtain ⟨h1, h2, h3, h4, h5, h6, h7, h8, hpipe⟩ := hinv
  have hM2 : (0 : Nat) < 2 ^ (k + 1) := Nat.pos_pow_of_pos _ (by omega)
  have hni := hn i
  have hv : (if s.prodFlag then ThSt.done else ThSt.waitPrev s.prodVal s.gProd)
      ≠ ThSt.start := by
    cases s.prodFlag <;> simp
  refine ⟨?_, h2, h3, ?_, ?_, ?_, ?_, ?_, ?_⟩
  · show queue_inc_prod_n ⟨k, s.prodVal, 0⟩ (n i) = (P0 + (s.gProd + n i)) % 2 ^ (k + 1)
    rw [h1, queue_inc_small _ hk (Nat.mod_lt _ hM2), Nat.mod_add_mod]
    congr 1
    omega
  · show s.gProd + n i = (Finset.univ.filter fun j =>
        (if j = i then (if s.prodFlag then ThSt.done
          else ThSt.waitPrev s.prodVal s.gProd) else s.th j) ≠ ThSt.start).sum n
    rw [filter_update_count s.th i _ n hv h, ← h4]
  · show true = decide (s.gCov < s.gProd + n i)
    exact (decide_eq_true (by omega)).symm
  · show s.gCov ≤ s.gProd + n i
    omega
  · show s.gOwn ≤ s.gProd + n i
    omega
  · show s.gHw ≤ s.gProd + n i
    omega
  · rcases hpipe with ⟨hall, hcv, hwn, hhw⟩ |
      ⟨i0, w, hw0, hoth, hcv, hwn, hhw, hlt⟩ |
      ⟨i0, a, b, hc0, hoth, ho, hh, hcv, hab, hbp⟩ |
      ⟨i0, a, b, hc0, hoth, ho, hh, hcv, hab, hbp⟩ |
      ⟨i0, j0, a, b, hij, hc0, hw0, hoth, ho, hh, hcv, hab, hbp⟩ |
      ⟨i0, j0, a, b, hij, hc0, hw0, hoth, ho, hh, hcv, hab, hbp⟩
    · -- A: the flag is clear, the caller becomes the first pending owner
      have hflag : s.prodFlag = false := by
        rw [h5]
        exact decide_eq_false (by omega)
      refine Or.inr (Or.inl ⟨i, s.gProd, ?_, ?_, hcv, hwn, hhw,
        show s.gProd < s.gProd + n i by omega⟩)
      · simp [hflag, h1]
      · intro j hj
        rcases hall j with hx | hx
        · left
          simp [hj, hx]
        · right
          simp [hj, hx]
    · -- B: flag set, the caller is a plain non-owner
      have hii0 : i ≠ i0 := by
        intro hii
        rw [hii, hw0] at h
        simp at h
      have hflag : s.prodFlag = true := by
        rw [h5]
        exact decide_eq_true (by omega)
      refine Or.inr (Or.inl ⟨i0, w, ?_, ?_, hcv, hwn, hhw,
        show w < s.gProd + n i by omega⟩)
      · simp [Ne.symm hii0, hw0]
      · intro j hj
        by_cases hji : j = i
        · right
          simp [hji, hflag]
        · rcases hoth j hj with hx | hx
        
          · left
            simp [hji, hx]
          · right
            simp [hji, hx]
    · -- C: a cleared owner, no pending owner; flag clear, new pending owner
      have hii0 : i ≠ i0 := by
        intro hii
        rw [hii, hc0] at h
        simp at h
      have hflag : s.prodFlag = false := by
        rw [h5]
        exact decide_eq_false (by omega)
      refine Or.inr (Or.inr (Or.inr (Or.inr (Or.inl
        ⟨i0, i, a, b, Ne.symm hii0, ?_, ?_, ?_, ho, hh, hcv, hab,
          show b < s.gProd + n i by omega⟩))))
      · simp [Ne.symm hii0, hc0]
      · simp [hflag, h1, ← hbp]
      · intro l hl1 hl2
        rcases hoth l hl1 with hx | hx
        · left
          simp [hl2, hx]
        · right
          simp [hl2, hx]
    · -- D: a publishing owner, no pending owner; like C
      have hii0 : i ≠ i0 := by
        intro hii
        rw [hii, hc0] at h
        simp at h
      have hflag : s.prodFlag = false := by
        rw [h5]
        exact decide_eq_false (by omega)
      refine Or.inr (Or.inr (Or.inr (Or.inr (Or.inr
        ⟨i0, i, a, b, Ne.symm hii0, ?_, ?_, ?_, ho, hh, hcv, hab,
          show b < s.gProd + n i by omega⟩))))
      · simp [Ne.symm hii0, hc0]
      · simp [hflag, h1, ← hbp]
      · intro l hl1 hl2
        rcases hoth l hl1 with hx | hx
        · left
          simp [hl2, hx]
        · right
          simp [hl2, hx]
    · -- E: cleared owner plus pending owner; flag set, caller is non-owner
      have hii0 : i ≠ i0 := by
        intro hii
        rw [hii, hc0] at h
        simp at h
      have hij0 : i ≠ j0 := by
        intro hii
        rw [hii, hw0] at h
        simp at h
      have hflag : s.prodFlag = true := by
        rw [h5]
        exact decide_eq_true (by omega)
      refine Or.inr (Or.inr (Or.inr (Or.inr (Or.inl
        ⟨i0, j0, a, b, hij, ?_, ?_, ?_, ho, hh, hcv, hab,
          show b < s.gProd + n i by omega⟩))))
      · simp [Ne.symm hii0, hc0]
      · simp [Ne.symm hij0, hw0]
      · intro l hl1 hl2
        by_cases hli : l = i
        · right
          simp [hli, hflag]
        · rcases hoth l hl1 hl2 with hx | hx
          · left
            simp [hli, hx]
          · right
            simp [hli, hx]
    · -- F: publishing owner plus pending owner; like E
      have hii0 : i ≠ i0 := by
        intro hii
        rw [hii, hc0] at h
        simp at h
      have hij0 : i ≠ j0 := by
        intro hii
        rw [hii, hw0] at h
        simp at h
      have hflag : s.prodFlag = true := by
        rw [h5]
        exact decide_eq_true (by omega)
      refine Or.inr (Or.inr (Or.inr (Or.inr (Or.inr
        ⟨i0, j0, a, b, hij, ?_, ?_, ?_, ho, hh, hcv, hab,
          show b < s.gProd + n i by omega⟩))))
      · simp [Ne.symm hii0, hc0]
      · simp [Ne.symm hij0, hw0]
      · intro l hl1 hl2
        by_cases hli : l = i
        · right
          simp [hli, hflag]
        · rcases hoth l hl1 hl2 with hx | hx
          · left
            simp [hli, hx]
          · right
            simp [hli, hx]

theorem cmdqInv_take {N k P0 : Nat} {n : Fin N → Nat}
    (hS : Finset.univ.sum n < 2 ^ (k + 1))
    {s : CSt N} (i : Fin N) (my gMy : Nat)
    (h : s.th i = ThSt.waitPrev my gMy) (hg : s.ownerProd = my)
    (hinv : cmdqInv k P0 n s) :
    cmdqInv k P0 n
      { s with
        prodFlag := false
        th := fun j => if j = i then ThSt.cleared my gMy s.prodVal s.gProd
          else s.th j
        gCov := s.gProd } := by
  obtain ⟨h1, h2, h3, h4, h5, h6, h7, h8, hpipe⟩ := hinv
  have hM2 : (0 : Nat) < 2 ^ (k + 1) := Nat.pos_pow_of_pos _ (by omega)
  have hgS : s.gProd ≤ Finset.univ.sum n := by
    rw [h4]
    exact Finset.sum_le_sum_of_subset (Finset.filter_subset _ _)
  rcases hpipe with ⟨hall, hcv, hwn, hhw⟩ |
      ⟨i0, w, hw0, hoth, hcv, hwn, hhw, hlt⟩ |
      ⟨i0, a, b, hc0, hoth, ho, hh, hcv, hab, hbp⟩ |
      ⟨i0, a, b, hc0, hoth, ho, hh, hcv, hab, hbp⟩ |
      ⟨i0, j0, a, b, hij, hc0, hw0, hoth, ho, hh, hcv, hab, hbp⟩ |
      ⟨i0, j0, a, b, hij, hc0, hw0, hoth, ho, hh, hcv, hab, hbp⟩
  · -- A: there is no pending owner; a take is impossible
    rcases hall i with hx | hx <;> rw [h] at hx <;> simp at hx
  · -- B: the taker is the unique pending owner
    have hii : i = i0 := by
      by_contra hne
      rcases hoth i hne with hx | hx <;> rw [h] at hx <;> simp at hx
    subst hii
    rw [h] at hw0
    injection hw0 with hmy hgMy
    refine ⟨h1, h2, h3, ?_, ?_, ?_, h7, h8, ?_⟩
    · show s.gProd = (Finset.univ.filter fun j =>
          (if j = i then ThSt.cleared my gMy s.prodVal s.gProd else s.th j)
            ≠ ThSt.start).sum n
      rw [filter_update_keep s.th i _ (by simp) (by rw [h]; simp), ← h4]
    · show false = decide (s.gProd < s.gProd)
      exact (decide_eq_false (by omega)).symm
    · show s.gProd ≤ s.gProd
      exact le_rfl
    · refine Or.inr (Or.inr (Or.inl ⟨i, w, s.gProd, ?_, ?_, hwn, hhw, rfl, hlt, rfl⟩))
      · simp [hmy, hgMy, h1]
      · intro j hj
        rcases hoth j hj with hx | hx
        · left
          simp [hj, hx]
        · right
          simp [hj, hx]
  · -- C: no pending owner; impossible
    have hne : i ≠ i0 := by
      intro hii
      rw [hii, hc0] at h
      simp at h
    rcases hoth i hne with hx | hx <;> rw [h] at hx <;> simp at hx
  · -- D: no pending owner; impossible
    have hne : i ≠ i0 := by
      intro hii
      rw [hii, hc0] at h
      simp at h
    rcases hoth i hne with hx | hx <;> rw [h] at hx <;> simp at hx
  · -- E: the pending owner's guard cannot hold before the finisher releases
    have hij' : i = j0 := by
      by_contra hne
      have hii0 : i ≠ i0 := by
        intro hii
        rw [hii, hc0] at h
        simp at h
      rcases hoth i hii0 hne with hx | hx <;> rw [h] at hx <;> simp at hx
    subst hij'
    rw [h] at hw0
    injection hw0 with hmy hgMy
    rw [ho] at h2
    have heq : (P0 + a) % 2 ^ (k + 1) = (P0 + b) % 2 ^ (k + 1) :=
      h2.symm.trans (hg.trans hmy)
    have hcontra : a = b := mod_inj_small (by omega) (by omega) heq
    omega
  · -- F: as in E
    have hij' : i = j0 := by
      by_contra hne
      have hii0 : i ≠ i0 := by
        intro hii
        rw [hii, hc0] at h
        simp at h
      rcases hoth i hii0 hne with hx | hx <;> rw [h] at hx <;> simp at hx
    subst hij'
    rw [h] at hw0
    injection hw0 with hmy hgMy
    rw [ho] at h2
    have heq : (P0 + a) % 2 ^ (k + 1) = (P0 + b) % 2 ^ (k + 1) :=
      h2.symm.trans (hg.trans hmy)
    have hcontra : a = b := mod_inj_small (by omega) (by omega) heq
    omega

theorem cmdqInv_publish {N k P0 : Nat} {n : Fin N → Nat}
    {s : CSt N} (i : Fin N) (my gMy snap gSn : Nat)
    (h : s.th i = ThSt.cleared my gMy snap gSn)
    (hinv : cmdqInv k P0 n s) :
    cmdqInv k P0 n
      { s with
        hwProd := snap
        th := fun j => if j = i then ThSt.wroteHw my gMy snap gSn else s.th j
        gHw := gSn } := by
  obtain ⟨h1, h2, h3, h4, h5, h6, h7, h8, hpipe⟩ := hinv
  rcases hpipe with ⟨hall, hcv, hwn, hhw⟩ |
      ⟨i0, w, hw0, hoth, hcv, hwn, hhw, hlt⟩ |
      ⟨i0, a, b, hc0, hoth, ho, hh, hcv, hab, hbp⟩ |
      ⟨i0, a, b, hc0, hoth, ho, hh, hcv, hab, hbp⟩ |
      ⟨i0, j0, a, b, hij, hc0, hw0, hoth, ho, hh, hcv, hab, hbp⟩ |
      ⟨i0, j0, a, b, hij, hc0, hw0, hoth, ho, hh, hcv, hab, hbp⟩
  · rcases hall i with hx | hx <;> rw [h] at hx <;> simp at hx
  · have hne : i ≠ i0 := by
      intro hii
      rw [hii, hw0] at h
      simp at h
    rcases hoth i hne with hx | hx <;> rw [h] at hx <;> simp at hx
  · -- C: the finisher publishes the hardware producer
    have hii : i = i0 := by
      by_contra hne
      rcases hoth i hne with hx | hx <;> rw [h] at hx <;> simp at hx
    subst hii
    rw [h] at hc0
    injection hc0 with hmy hgMy hsnap hgSn
    refine ⟨h1, h2, ?_, ?_, h5, h6, h7, ?_, ?_⟩
    · show snap = (P0 + gSn) % 2 ^ (k + 1)
      rw [hsnap, hgSn]
    · show s.gProd = (Finset.univ.filter fun j =>
          (if j = i then ThSt.wroteHw my gMy snap gSn else s.th j)
            ≠ ThSt.start).sum n
      rw [filter_update_keep s.th i _ (by simp) (by rw [h]; simp), ← h4]
    · show gSn ≤ s.gProd
      omega
    · refine Or.inr (Or.inr (Or.inr (Or.inl
        ⟨i, a, b, ?_, ?_, ho, show gSn = b from hgSn, hcv, hab, hbp⟩)))
      · simp [hmy, hgMy, hsnap, hgSn]
      · intro j hj
        rcases hoth j hj with hx | hx
        · left
          simp [hj, hx]
        · right
          simp [hj, hx]
  · have hne : i ≠ i0 := by
      intro hii
      rw [hii, hc0] at h
      simp at h
    rcases hoth i hne with hx | hx <;> rw [h] at hx <;> simp at hx
  · -- E: the finisher publishes while the next owner is pending
    have hij0 : i ≠ j0 := by
      intro hii
      rw [hii, hw0] at h
      simp at h
    have hii : i = i0 := by
      by_contra hne
      rcases hoth i hne hij0 with hx | hx <;> rw [h] at hx <;> simp at hx
    subst hii
    rw [h] at hc0
    injection hc0 with hmy hgMy hsnap hgSn
    refine ⟨h1, h2, ?_, ?_, h5, h6, h7, ?_, ?_⟩
    · show snap = (P0 + gSn) % 2 ^ (k + 1)
      rw [hsnap, hgSn]
    · show s.gProd = (Finset.univ.filter fun j =>
          (if j = i then ThSt.wroteHw my gMy snap gSn else s.th j)
            ≠ ThSt.start).sum n
      rw [filter_update_keep s.th i _ (by simp) (by rw [h]; simp), ← h4]
    · show gSn ≤ s.gProd
      omega
    · refine Or.inr (Or.inr (Or.inr (Or.inr (Or.inr
        ⟨i, j0, a, b, hij, ?_, ?_, ?_, ho, show gSn = b from hgSn, hcv, hab, hbp⟩))))
      · simp [hmy, hgMy, hsnap, hgSn]
      · simp [Ne.symm hij0, hw0]
      · intro l hl1 hl2
        rcases hoth l hl1 hl2 with hx | hx
        · left
          simp [hl1, hx]
        · right
          simp [hl1, hx]
  · have hij0 : i ≠ j0 := by
      intro hii
      rw [hii, hw0] at h
      simp at h
    have hne : i ≠ i0 := by
      intro hii
      rw [hii, hc0] at h
      simp at h
    rcases hoth i hne hij0 with hx | hx <;> rw [h] at hx <;> simp at hx

theorem cmdqInv_release {N k P0 : Nat} {n : Fin N → Nat}
    {s : CSt N} (i : Fin N) (my gMy snap gSn : Nat)
    (h : s.th i = ThSt.wroteHw my gMy snap gSn)
    (hinv : cmdqInv k P0 n s) :
    cmdqInv k P0 n
      { s with
        ownerProd := snap
        th := fun j => if j = i then ThSt.done else s.th j
        gOwn := gSn } := by
  obtain ⟨h1, h2, h3, h4, h5, h6, h7, h8, hpipe⟩ := hinv
  rcases hpipe with ⟨hall, hcv, hwn, hhw⟩ |
      ⟨i0, w, hw0, hoth, hcv, hwn, hhw, hlt⟩ |
      ⟨i0, a, b, hc0, hoth, ho, hh, hcv, hab, hbp⟩ |
      ⟨i0, a, b, hc0, hoth, ho, hh, hcv, hab, hbp⟩ |
      ⟨i0, j0, a, b, hij, hc0, hw0, hoth, ho, hh, hcv, hab, hbp⟩ |
      ⟨i0, j0, a, b, hij, hc0, hw0, hoth, ho, hh, hcv, hab, hbp⟩
  · rcases hall i with hx | hx <;> rw [h] at hx <;> simp at hx
  · have hne : i ≠ i0 := by
      intro hii
      rw [hii, hw0] at h
      simp at h
    rcases hoth i hne with hx | hx <;> rw [h] at hx <;> simp at hx
  · have hne : i ≠ i0 := by
      intro hii
      rw [hii, hc0] at h
      simp at h
    rcases hoth i hne with hx | hx <;> rw [h] at hx <;> simp at hx
  · -- D: the last owner releases; the pipeline drains
    have hii : i = i0 := by
      by_contra hne
      rcases hoth i hne with hx | hx <;> rw [h] at hx <;> simp at hx
    subst hii
    rw [h] at hc0
    injection hc0 with hmy hgMy hsnap hgSn
    refine ⟨h1, ?_, h3, ?_, h5, h6, ?_, h8, ?_⟩
    · show snap = (P0 + gSn) % 2 ^ (k + 1)
      rw [hsnap, hgSn]
    · show s.gProd = (Finset.univ.filter fun j =>
          (if j = i then ThSt.done else s.th j) ≠ ThSt.start).sum n
      rw [filter_update_keep s.th i _ (by simp) (by rw [h]; simp), ← h4]
    · show gSn ≤ s.gProd
      omega
    · refine Or.inl ⟨?_, show s.gCov = s.gProd by omega,
        show gSn = s.gProd by omega, show s.gHw = s.gProd by omega⟩
      intro j
      by_cases hji : j = i
      · right
        simp [hji]
      · rcases hoth j hji with hx | hx
        · left
          simp [hji, hx]
        · right
          simp [hji, hx]
  · have hij0 : i ≠ j0 := by
      intro hii
      rw [hii, hw0] at h
      simp at h
    have hne : i ≠ i0 := by
      intro hii
      rw [hii, hc0] at h
      simp at h
    rcases hoth i hne hij0 with hx | hx <;> rw [h] at hx <;> simp at hx
  · -- F: the finisher releases; the pending owner becomes the head of the chain
    have hij0 : i ≠ j0 := by
      intro hii
      rw [hii, hw0] at h
      simp at h
    have hii : i = i0 := by
      by_contra hne
      rcases hoth i hne hij0 with hx | hx <;> rw [h] at hx <;> simp at hx
    subst hii
    rw [h] at hc0
    injection hc0 with hmy hgMy hsnap hgSn
    refine ⟨h1, ?_, h3, ?_, h5, h6, ?_, h8, ?_⟩
    · show snap = (P0 + gSn) % 2 ^ (k + 1)
      rw [hsnap, hgSn]
    · show s.gProd = (Finset.univ.filter fun j =>
          (if j = i then ThSt.done else s.th j) ≠ ThSt.start).sum n
      rw [filter_update_keep s.th i _ (by simp) (by rw [h]; simp), ← h4]
    · show gSn ≤ s.gProd
      omega
    · refine Or.inr (Or.inl ⟨j0, b, ?_, ?_, hcv, show gSn = b from hgSn, hh, hbp⟩)
      · simp [Ne.symm hij0, hw0]
      · intro l hl
        by_cases hli : l = i
        · right
          simp [hli]
        · rcases hoth l hli hl with hx | hx
          · left
            simp [hli, hx]
          · right
            simp [hli, hx]

theorem cmdqInv_init {N k P0 : Nat} (n : Fin N → Nat) (hP0 : P0 < 2 ^ (k + 1)) :
    cmdqInv k P0 n (cmdqInit N P0) := by
  refine ⟨?_, ?_, ?_, ?_, rfl, le_rfl, le_rfl, le_rfl,
    Or.inl ⟨fun j => Or.inl rfl, rfl, rfl, rfl⟩⟩
  · show P0 = (P0 + 0) % 2 ^ (k + 1)
    rw [Nat.add_zero, Nat.mod_eq_of_lt hP0]
  · show P0 = (P0 + 0) % 2 ^ (k + 1)
    rw [Nat.add_zero, Nat.mod_eq_of_lt hP0]
  · show P0 = (P0 + 0) % 2 ^ (k + 1)
    rw [Nat.add_zero, Nat.mod_eq_of_lt hP0]
  · show (0 : Nat) = (Finset.univ.filter fun _ : Fin N =>
        ThSt.start ≠ ThSt.start).sum n
    simp

theorem cmdqInv_reach {N k P0 : Nat} {n : Fin N → Nat} (hk : k + 1 ≤ 31)
    (hP0 : P0 < 2 ^ (k + 1)) (hn : ∀ i, 0 < n i)
    (hS : Finset.univ.sum n < 2 ^ (k + 1))
    {s : CSt N} (hreach : Relation.ReflTransGen (cmdqStep k n) (cmdqInit N P0) s) :
    cmdqInv k P0 n s := by
  induction hreach with
  | refl => exact cmdqInv_init n hP0
  | tail hab hbc ih =>
    cases hbc with
    | reserve i h => exact cmdqInv_reserve hk hn i h ih
    | take i my gMy h hg => exact cmdqInv_take hS i my gMy h hg ih
    | publish i my gMy snap gSn h => exact cmdqInv_publish i my gMy snap gSn h ih
    | release i my gMy snap gSn h => exact cmdqInv_release i my gMy snap gSn h ih

/-- C1: in the interleaving model of `arm_smmu_cmdq_issue_cmdlist`, for every
set of concurrent callers each submitting a positive batch (commands plus
optional sync marker), in any interleaved execution in which all callers have
returned, the hardware-visible producer register equals the initial producer
advanced, modulo twice the queue capacity, by the total number of slots
reserved by all callers: no reservation is lost and none is published
twice. -/
theorem issue_cmdlist_no_lost_reservations {N k P0 : Nat} (n : Fin N → Nat)
    (hk : k + 1 ≤ 31) (hP0 : P0 < 2 ^ (k + 1)) (hn : ∀ i, 0 < n i)
    (hS : Finset.univ.sum n < 2 ^ (k + 1)) (s : CSt N)
    (hreach : Relation.ReflTransGen (cmdqStep k n) (cmdqInit N P0) s)
    (hdone : ∀ i, s.th i = ThSt.done) :
    s.hwProd = (P0 + Finset.univ.sum n) % 2 ^ (k + 1) := by
  obtain ⟨h1, h2, h3, h4, h5, h6, h7, h8, hpipe⟩ := cmdqInv_reach hk hP0 hn hS hreach
  have hfull : (Finset.univ.filter fun j => s.th j ≠ ThSt.start) = Finset.univ := by
    ext j
    simp [hdone j]
  have hgS : s.gProd = Finset.univ.sum n := by
    rw [h4, hfull]
  rcases hpipe with ⟨hall, hcv, hwn, hhw⟩ |
      ⟨i0, w, hw0, hoth, hcv, hwn, hhw, hlt⟩ |
      ⟨i0, a, b, hc0, hoth, ho, hh, hcv, hab, hbp⟩ |
      ⟨i0, a, b, hc0, hoth, ho, hh, hcv, hab, hbp⟩ |
      ⟨i0, j0, a, b, hij, hc0, hw0, hoth, ho, hh, hcv, hab, hbp⟩ |
      ⟨i0, j0, a, b, hij, hc0, hw0, hoth, ho, hh, hcv, hab, hbp⟩
  · rw [h3, hhw, hgS]
  · rw [hdone i0] at hw0
    simp at hw0
  · rw [hdone i0] at hc0
    simp at hc0
  · rw [hdone i0] at hc0
    simp at hc0
  · rw [hdone i0] at hc0
    simp at hc0
  · rw [hdone i0] at hc0
    simp at hc0

theorem issue_cmdlist_no_lost_reservations_witness :
    ∃ s : CSt 1, Relation.ReflTransGen (cmdqStep 0 (fun _ => 1)) (cmdqInit 1 0) s ∧
      (∀ i, s.th i = ThSt.done) ∧
      s.hwProd = (0 + Finset.univ.sum (fun _ : Fin 1 => 1)) % 2 ^ (0 + 1) := by
  have hs1 : cmdqStep 0 (fun _ : Fin 1 => 1) (cmdqInit 1 0)
      ⟨1, true, 0, 0,
        fun j => if j = 0 then ThSt.waitPrev 0 0 else ThSt.start, 1, 0, 0, 0⟩ :=
    cmdqStep.reserve _ 0 rfl
  have hs2 : cmdqStep 0 (fun _ : Fin 1 => 1)
      ⟨1, true, 0, 0,
        fun j => if j = 0 then ThSt.waitPrev 0 0 else ThSt.start, 1, 0, 0, 0⟩
      ⟨1, false, 0, 0,
        fun j => if j = 0 then ThSt.cleared 0 0 1 1 else
          if j = 0 then ThSt.waitPrev 0 0 else ThSt.start, 1, 1, 0, 0⟩ :=
    cmdqStep.take _ 0 0 0 rfl rfl
  have hs3 : cmdqStep 0 (fun _ : Fin 1 => 1)
      ⟨1, false, 0, 0,
        fun j => if j = 0 then ThSt.cleared 0 0 1 1 else
          if j = 0 then ThSt.waitPrev 0 0 else ThSt.start, 1, 1, 0, 0⟩
      ⟨1, false, 0, 1,
        fun j => if j = 0 then ThSt.wroteHw 0 0 1 1 else
          if j = 0 then ThSt.cleared 0 0 1 1 else
            if j = 0 then ThSt.waitPrev 0 0 else ThSt.start, 1, 1, 0, 1⟩ :=
    cmdqStep.publish _ 0 0 0 1 1 rfl
  have hs4 : cmdqStep 0 (fun _ : Fin 1 => 1)
      ⟨1, false, 0, 1,
        fun j => if j = 0 then ThSt.wroteHw 0 0 1 1 else
          if j = 0 then ThSt.cleared 0 0 1 1 else
            if j = 0 then ThSt.waitPrev 0 0 else ThSt.start, 1, 1, 0, 1⟩
      ⟨1, false, 1, 1,
        fun j => if j = 0 then ThSt.done else
          if j = 0 then ThSt.wroteHw 0 0 1 1 else
            if j = 0 then ThSt.cleared 0 0 1 1 else
              if j = 0 then ThSt.waitPrev 0 0 else ThSt.start, 1, 1, 1, 1⟩ :=
    cmdqStep.release _ 0 0 0 1 1 rfl
  have hreach : Relation.ReflTransGen (cmdqStep 0 (fun _ : Fin 1 => 1)) (cmdqInit 1 0)
      ⟨1, false, 1, 1,
        fun j => if j = 0 then ThSt.done else
          if j = 0 then ThSt.wroteHw 0 0 1 1 else
            if j = 0 then ThSt.cleared 0 0 1 1 else
              if j = 0 then ThSt.waitPrev 0 0 else ThSt.start, 1, 1, 1, 1⟩ :=
    Relation.ReflTransGen.head hs1 (Relation.ReflTransGen.head hs2
      (Relation.ReflTransGen.head hs3 (Relation.ReflTransGen.head hs4
        Relation.ReflTransGen.refl)))
  refine ⟨_, hreach, by decide, ?_⟩
  exact issue_cmdlist_no_lost_reservations (fun _ => 1) (by decide) (by decide)
    (fun _ => Nat.one_pos) (by simp) _ hreach (by decide)
